import Mathlib

/-!
Verification of the ESV passage-HTML transformer (`internal/esv/transform.go`).

The development shallowly embeds the DOM-rewriting algorithm: the parsed HTML
fragment is a forest of `Node` values (element / text, as produced by the
fragment parser), and each Go function of the transformer is translated into a
Lean function over that tree.  The Go code mutates an owned tree; here every
function returns the rebuilt value instead.  `golang.org/x/net/html`'s
`AppendChild` panics when handed a node that is still attached to a parent;
that failure mode is modelled explicitly by the `GoErr.panicAttached` error.

General recursion of the tree walk (`processNode` recurses into freshly built
`section` nodes, so the recursion is not structural) is expressed with an
explicit fuel parameter; `GoErr.outOfFuel` marks fuel exhaustion and is kept
distinct from the modelled panic.
-/

/-- An HTML attribute: key/value pair (`html.Attribute`, namespace unused). -/
structure Attr where
  key : String
  val : String
deriving Repr, DecidableEq

/-- A DOM node of the parsed fragment: an element with tag name, ordered
attributes and ordered children, or a text node (`html.Node` restricted to
`ElementNode`/`TextNode`, the only kinds the transformer handles). -/
inductive Node where
  | elem (tag : String) (attrs : List Attr) (children : List Node)
  | text (data : String)

/-- Tag name of a node (`""` for text nodes, like a zero `DataAtom`). -/
def nodeTag : Node → String
  | .elem t _ _ => t
  | .text _ => ""

/-- Attribute list of a node (`n.Attr`; nil for text nodes). -/
def nodeAttrs : Node → List Attr
  | .elem _ a _ => a
  | .text _ => []

/-- Children of a node (text nodes are leaves). -/
def nodeChildren : Node → List Node
  | .elem _ _ ch => ch
  | .text _ => []

/-! ## Character classes and whitespace trimming -/

/-- The cutset of `transform.go`: spaces, tabs, newlines, carriage returns and
non-breaking spaces (U+00A0). -/
def isCutsetChar (c : Char) : Bool :=
  c == ' ' || c == '\t' || c == '\n' || c == '\r' || c == '\u00A0'

/-- Go's `unicode.IsSpace`: ASCII whitespace plus the Unicode space
characters (used by `strings.TrimSpace` and `strings.Fields`). -/
def goIsSpace (c : Char) : Bool :=
  c == '\t' || c == '\n' || c == '\u000B' || c == '\u000C' || c == '\r' ||
  c == ' ' || c == '\u0085' || c == '\u00A0' || c == '\u1680' ||
  ('\u2000' ≤ c && c ≤ '\u200A') || c == '\u2028' || c == '\u2029' ||
  c == '\u202F' || c == '\u205F' || c == '\u3000'

/-- `strings.TrimLeft(s, cutset)`. -/
def goTrimLeft (s : String) : String :=
  String.mk (s.data.dropWhile isCutsetChar)

/-- `strings.TrimRight(s, cutset)`. -/
def goTrimRight (s : String) : String :=
  String.mk (s.data.reverse.dropWhile isCutsetChar).reverse

/-- `strings.Trim(s, cutset)` (both ends). -/
def goTrim (s : String) : String :=
  goTrimRight (goTrimLeft s)

/-- Whether `strings.TrimSpace(s) == ""`, i.e. `s` is whitespace-only. -/
def wsOnly (s : String) : Bool :=
  s.data.all goIsSpace

/-- Accumulator step for `strings.Fields`: split around runs of
`unicode.IsSpace` characters, dropping empty pieces.  `cur` holds the current
field, reversed. -/
def fieldsAux (cur : List Char) : List Char → List String
  | [] => if cur.isEmpty then [] else [String.mk cur.reverse]
  | c :: rest =>
    if goIsSpace c then
      if cur.isEmpty then fieldsAux [] rest
      else String.mk cur.reverse :: fieldsAux [] rest
    else fieldsAux (c :: cur) rest

/-- `strings.Fields`. -/
def goFields (s : String) : List String :=
  fieldsAux [] s.data

/-- `strings.Join(fields, " ")`. -/
def joinSpace : List String → String
  | [] => ""
  | [t] => t
  | t :: rest => t ++ " " ++ joinSpace rest

/-- A well-formed class token: nonempty and free of whitespace (exactly the
strings `strings.Fields` can produce). -/
def isToken (t : String) : Bool :=
  !(t == "") && t.data.all fun c => !goIsSpace c

/-! ## Attribute and class utilities (`transform.go` lines 416–483)

The Go helpers read and mutate `n.Attr`; they are translated as functions on
the attribute list. -/

/-- `hasClass`: some `class` attribute's space-separated value contains the
token. -/
def hasClass (attrs : List Attr) (cls : String) : Bool :=
  attrs.any fun a => a.key == "class" && (goFields a.val).contains cls

/-- Helper for `addClass`: walk to the first `class` attribute; `present` is
the precomputed `hasClass` over the whole list (Go computes it lazily at the
first `class` attribute, over the whole list as well). -/
def addClassAux (present : Bool) (nc : String) : List Attr → List Attr
  | [] => [⟨"class", nc⟩]
  | a :: rest =>
    if a.key == "class" then
      if present then a :: rest else ⟨a.key, a.val ++ " " ++ nc⟩ :: rest
    else a :: addClassAux present nc rest

/-- `addClass`: append the token (space-separated) to the first `class`
attribute unless already present anywhere; create the attribute if absent. -/
def addClass (attrs : List Attr) (nc : String) : List Attr :=
  addClassAux (hasClass attrs nc) nc attrs

/-- `removeClass`: on the first `class` attribute, drop every field equal to
the target; if nothing is left delete the attribute, otherwise re-join the
remaining fields with single spaces.  Later attributes are untouched and the
walk stops at the first `class` attribute either way. -/
def removeClass (attrs : List Attr) (target : String) : List Attr :=
  match attrs with
  | [] => []
  | a :: rest =>
    if a.key == "class" then
      let fields := goFields a.val
      if fields.contains target then
        let newFields := fields.filter (fun f => f ≠ target)
        if newFields.isEmpty then rest
        else ⟨a.key, joinSpace newFields⟩ :: rest
      else a :: rest
    else a :: removeClass rest target

/-- `setAttr`: overwrite the first attribute with the key, or append. -/
def setAttr (attrs : List Attr) (k v : String) : List Attr :=
  match attrs with
  | [] => [⟨k, v⟩]
  | a :: rest => if a.key == k then ⟨a.key, v⟩ :: rest else a :: setAttr rest k v

/-- `removeAttr`: delete the first attribute with the key. -/
def removeAttr (attrs : List Attr) (k : String) : List Attr :=
  match attrs with
  | [] => []
  | a :: rest => if a.key == k then rest else a :: removeAttr rest k

/-- Value of the first attribute with the key, if any. -/
def getAttr (attrs : List Attr) (k : String) : Option String :=
  match attrs with
  | [] => none
  | a :: rest => if a.key == k then some a.val else getAttr rest k

/-! ## Node predicates (`transform.go` lines 485–516) -/

/-- `isBlock`: p, div, section or a heading. -/
def isBlockTag (t : String) : Bool :=
  t == "p" || t == "div" || t == "section" ||
  t == "h1" || t == "h2" || t == "h3" || t == "h4" || t == "h5" || t == "h6"

/-- `isBlock` on a node (a text node has no tag and is never block). -/
def isBlock (n : Node) : Bool :=
  isBlockTag (nodeTag n)

/-- `isStylizedLine`: a `span` with class `line` (a poetic line). -/
def isStylizedLine (n : Node) : Bool :=
  nodeTag n == "span" && hasClass (nodeAttrs n) "line"

/-- `isBeginLineGroup`: a `span` with class `begin-line-group`. -/
def isBeginLineGroup (n : Node) : Bool :=
  nodeTag n == "span" && hasClass (nodeAttrs n) "begin-line-group"

/-- `isEndLineGroup`: a `span` with class `end-line-group`. -/
def isEndLineGroup (n : Node) : Bool :=
  nodeTag n == "span" && hasClass (nodeAttrs n) "end-line-group"

/-- `isCopyrightLink`: an `a` element with class `copyright`. -/
def isCopyrightLink (n : Node) : Bool :=
  nodeTag n == "a" && hasClass (nodeAttrs n) "copyright"

mutual
/-- Whether the subtree rooted at `n` (including `n`) contains a `section`
element; `hasSection n` in Go iterates `n.Descendants()` (excluding `n`), so
it corresponds to `listHasSection (nodeChildren n)`. -/
def subtreeHasSection : Node → Bool
  | .text _ => false
  | .elem t _ ch => t == "section" || listHasSection ch
/-- Whether some node of the forest has a `section` element in its subtree. -/
def listHasSection : List Node → Bool
  | [] => false
  | n :: ns => subtreeHasSection n || listHasSection ns
end

/-- `hasSection`: the node has a `section` element among its descendants. -/
def hasSection (n : Node) : Bool :=
  listHasSection (nodeChildren n)

/-! ## Verse-marker detection (`getVerseRef`, lines 357–374) -/

/-- The regular expression `^v(\d{8}).*` applied by `FindStringSubmatch`: the
value must start with `v` followed by at least eight ASCII digits; the first
eight digits are the captured reference, the rest of the value is ignored. -/
def matchVerseID (s : String) : Option String :=
  match s.data with
  | 'v' :: rest =>
    if rest.length ≥ 8 && (rest.take 8).all Char.isDigit then
      some (String.mk (rest.take 8))
    else none
  | _ => none

/-- `getVerseRef` over the attribute list: the capture of the first `id`
attribute whose value matches the verse pattern, else `""`. -/
def getVerseRefAttrs (attrs : List Attr) : String :=
  match attrs with
  | [] => ""
  | a :: rest =>
    if a.key == "id" then
      match matchVerseID a.val with
      | some r => r
      | none => getVerseRefAttrs rest
    else getVerseRefAttrs rest

/-- `getVerseRef`: `""` for non-elements. -/
def getVerseRef (n : Node) : String :=
  match n with
  | .elem _ attrs _ => getVerseRefAttrs attrs
  | .text _ => ""

/-! ## Synthetic nodes and whitespace post-processing -/

/-- `createVerseWrapper`: the synthetic `span` with class `verse` and the
`data-ref` attribute (here created directly with its children, since the Go
code appends them immediately after creation). -/
def createVerseWrapper (ref : String) (ch : List Node) : Node :=
  .elem "span" [⟨"class", "verse"⟩, ⟨"data-ref", ref⟩] ch

/-- The synthetic line-group `section` produced by the line-group folding. -/
def mkSection (ch : List Node) : Node :=
  .elem "section" [⟨"class", "line-group"⟩] ch

/-- Append a child at the end of an element's child list (`AppendChild` on a
detached child). -/
def appendChild (n : Node) (c : Node) : Node :=
  match n with
  | .elem t a ch => .elem t a (ch ++ [c])
  | .text d => .text d

/-- `trimTrailingWhitespace` on a children list: right-trim the last child if
it is a text node, removing it when it becomes empty. -/
def trimTrailingWS : List Node → List Node
  | [] => []
  | [.text d] =>
    let d1 := goTrimRight d
    if d1 == "" then [] else [.text d1]
  | [n] => [n]
  | n :: rest => n :: trimTrailingWS rest

/-- `trimTrailingWhitespace` on a node. -/
def trimTrailingWhitespace (n : Node) : Node :=
  match n with
  | .elem t a ch => .elem t a (trimTrailingWS ch)
  | .text d => .text d

/-- First half of `trimChildrenWhitespace`: left-trim the first child if it
is a text node, removing it (and, in Go, recursing — passed in as `tcw`)
when it empties. -/
def tcwLeftGo (tcw : List Node → List Node) : List Node → List Node
  | .text d :: rest =>
    let d1 := goTrimLeft d
    if d1 == "" then
      if rest.isEmpty then rest else tcw rest
    else .text d1 :: rest
  | ch => ch

/-- Second half of `trimChildrenWhitespace`: right-trim the last child if it
is a text node, removing it (and recursing via `tcw`) when it empties. -/
def tcwRightGo (tcw : List Node → List Node) (ch1 : List Node) : List Node :=
  match ch1.getLast? with
  | some (.text e) =>
    let e1 := goTrimRight e
    if e1 == "" then
      let ch2 := ch1.dropLast
      if ch2.isEmpty then ch2 else tcw ch2
    else ch1.dropLast ++ [.text e1]
  | _ => ch1

/-- One pass of `trimChildrenWhitespace` with explicit fuel.  The Go function
recurses only after removing a child, so `length + 1` fuel always suffices;
fuel-starved calls return the list unchanged. -/
def trimChildrenWSF : Nat → List Node → List Node
  | 0, ch => ch
  | fuel + 1, ch => tcwRightGo (trimChildrenWSF fuel) (tcwLeftGo (trimChildrenWSF fuel) ch)

/-- `trimChildrenWhitespace` on a children list. -/
def trimChildrenWS (ch : List Node) : List Node :=
  trimChildrenWSF (ch.length + 1) ch

/-- `cleanVerseMarker`: trim terminal whitespace children of a
`b.verse-num` marker element. -/
def cleanVerseMarker (n : Node) : Node :=
  match n with
  | .elem t a ch =>
    if t == "b" && hasClass a "verse-num" then .elem t a (trimChildrenWS ch) else n
  | .text d => .text d

/-- `cleanupAttributes`: strip API-artifact attributes depending on the tag
(`id` from p/b/headings and `span.line`, the `virtual` class from p). -/
def cleanupAttrs (tag : String) (attrs : List Attr) : List Attr :=
  if tag == "p" then removeClass (removeAttr attrs "id") "virtual"
  else if tag == "span" then
    if hasClass attrs "line" then removeAttr attrs "id" else attrs
  else if tag == "b" then removeAttr attrs "id"
  else if tag == "h1" || tag == "h2" || tag == "h3" || tag == "h4" ||
      tag == "h5" || tag == "h6" then removeAttr attrs "id"
  else attrs

/-- `cleanupAttributes` on a node (the Go call sites only reach elements). -/
def cleanupNode (n : Node) : Node :=
  match n with
  | .elem t a ch => .elem t (cleanupAttrs t a) ch
  | .text d => .text d

/-! ## The recursive transformer (`processNode`, lines 85–324)

`processNode` rebuilds each element's child list.  The Go loop threads four
pieces of state (`newChildren`, `currentWrapper`, `shouldTrimLeading` and
`activeVerseRef`); the loop body may also fail: the "unwrap P containing
Section" branch (lines 207–214) promotes children that are still attached to
the dropped paragraph, so the later re-attach loop (lines 311–314) calls
`AppendChild` on attached nodes and panics.  The model raises
`GoErr.panicAttached` at the unwrap instead; no output is observable after a
panic, so the exact raise point is irrelevant. -/

/-- Failure modes of the modelled transformer. -/
inductive GoErr where
  | panicAttached
  | outOfFuel
deriving Repr, DecidableEq

/-- Loop state of `processNode`'s verse-wrapping pass. -/
structure LoopState where
  out : List Node
  wrapper : Option Node
  trimLead : Bool
  ref : String

/-- The local `closeWrapper` helper (lines 153–162): trim the wrapper's
trailing whitespace, append it to the output only if it still has a child,
and clear it. -/
def closeWrapperStep (s : LoopState) : LoopState :=
  match s.wrapper with
  | none => s
  | some w =>
    let w1 := trimTrailingWhitespace w
    if (nodeChildren w1).isEmpty then { s with wrapper := none }
    else { s with out := s.out ++ [w1], wrapper := none }

/-- Line-group folding (step 1, lines 118–146) as a left-to-right walk:
`cur = some xs` models an open `currentSection` whose collected children are
`xs` (the Go code appends the section to `groupedChildren` on `begin` and
mutates it afterwards; materialising it when it closes keeps the position).
A `begin` marker opens a fresh section (closing any open one), an `end`
marker just closes, and other children go into the open section or the
output. -/
def foldLGAux (secs : Option (List Node) → List Node) : List Node → List Node → Option (List Node) → List Node
  | [], done, cur => done ++ secs cur
  | c :: rest, done, cur =>
    if isBeginLineGroup c then foldLGAux secs rest (done ++ secs cur) (some [])
    else if isEndLineGroup c then foldLGAux secs rest (done ++ secs cur) none
    else
      match cur with
      | some xs => foldLGAux secs rest done (some (xs ++ [c]))
      | none => foldLGAux secs rest (done ++ [c]) none

/-- Materialise an open section, if any. -/
def closeSec : Option (List Node) → List Node
  | none => []
  | some xs => [mkSection xs]

/-- `children = groupedChildren` after step 1. -/
def foldLineGroups (ch : List Node) : List Node :=
  foldLGAux closeSec ch [] none

/-- Early whitespace trim for the text children of a `b.verse-num` node
(lines 104–111). -/
def trimTextBoth (n : Node) : Node :=
  match n with
  | .text d => .text (goTrim d)
  | e => e

/-- The body of `processNode`'s children loop (step 2, lines 164–308),
parameterised by the recursive call `pn` on child nodes.  `ptag`/`pattrs`
describe the enclosing node `n` after its own attribute cleanup. -/
def procChildrenGo (pn : Node → String → Except GoErr (Node × String))
    (ptag : String) (pattrs : List Attr) : List Node → LoopState → Except GoErr LoopState
  | [], s => .ok s
  | c :: rest, s =>
    let stylizedParent := ptag == "span" && hasClass pattrs "line"
    -- marker detection happens before the child's attribute cleanup
    let ref0 := getVerseRef c
    let c1 := match c with
      | .elem _ _ _ => cleanupNode c
      | .text d => .text d
    if ref0 ≠ "" then
      let s1 := closeWrapperStep s
      let c2 := cleanVerseMarker c1
      if stylizedParent then
        procChildrenGo pn ptag pattrs rest
          { s1 with out := s1.out ++ [c2], ref := ref0, trimLead := true }
      else
        procChildrenGo pn ptag pattrs rest
          { s1 with wrapper := some (createVerseWrapper ref0 [c2]), ref := ref0, trimLead := true }
    else if isCopyrightLink c1 then
      let s1 := closeWrapperStep s
      procChildrenGo pn ptag pattrs rest { s1 with out := s1.out ++ [c1], ref := "" }
    else
      match c1 with
      | .elem ctag _ _ =>
        if isBlockTag ctag then
          let s1 := closeWrapperStep s
          match pn c1 s1.ref with
          | .error e => .error e
          | .ok (c2, ref1) =>
            -- unwrap "P containing Section": the promoted children are still
            -- attached to the paragraph, and re-attaching them panics
            if ctag == "p" && hasSection c2 then .error .panicAttached
            else if ctag == "p" && (nodeChildren c2).isEmpty then
              procChildrenGo pn ptag pattrs rest { s1 with ref := ref1, trimLead := false }
            else
              procChildrenGo pn ptag pattrs rest
                { s1 with out := s1.out ++ [c2], ref := ref1, trimLead := false }
        else if ctag == "br" then
          let s1 := closeWrapperStep s
          procChildrenGo pn ptag pattrs rest { s1 with out := s1.out ++ [c1], trimLead := false }
        else if isStylizedLine c1 then
          let s1 := closeWrapperStep s
          match pn c1 s1.ref with
          | .error e => .error e
          | .ok (c2, ref1) =>
            let c3 :=
              if ref1 ≠ "" then
                match c2 with
                | .elem t2 a2 ch2 => .elem t2 (setAttr (addClass a2 "verse") "data-ref" ref1) ch2
                | .text d => .text d
              else c2
            procChildrenGo pn ptag pattrs rest
              { s1 with out := s1.out ++ [c3], ref := ref1, trimLead := false }
        else
          -- inline element: reset leading trim, then route into the wrapper
          -- when a verse is active and the parent is not a poetic line
          if s.ref ≠ "" && !stylizedParent then
            let w := match s.wrapper with
              | some w => w
              | none => createVerseWrapper s.ref []
            match pn c1 s.ref with
            | .error e => .error e
            | .ok (c2, _) =>
              if ctag == "p" && (nodeChildren c2).isEmpty then
                procChildrenGo pn ptag pattrs rest { s with wrapper := some w, trimLead := false }
              else
                procChildrenGo pn ptag pattrs rest
                  { s with wrapper := some (appendChild w c2), trimLead := false }
          else
            match pn c1 s.ref with
            | .error e => .error e
            | .ok (c2, _) =>
              if ctag == "p" && (nodeChildren c2).isEmpty then
                procChildrenGo pn ptag pattrs rest { s with trimLead := false }
              else
                procChildrenGo pn ptag pattrs rest { s with out := s.out ++ [c2], trimLead := false }
      | .text d =>
        let d1 := if s.trimLead then goTrimLeft d else d
        let tl1 := if s.trimLead then (if d1.length > 0 then false else s.trimLead) else s.trimLead
        if wsOnly d1 && (ptag == "section" && hasClass pattrs "line-group") then
          procChildrenGo pn ptag pattrs rest { s with out := s.out ++ [.text d1], trimLead := tl1 }
        else if s.ref ≠ "" then
          if stylizedParent then
            procChildrenGo pn ptag pattrs rest { s with out := s.out ++ [.text d1], trimLead := tl1 }
          else
            let w := match s.wrapper with
              | some w => w
              | none => createVerseWrapper s.ref []
            procChildrenGo pn ptag pattrs rest
              { s with wrapper := some (appendChild w (.text d1)), trimLead := tl1 }
        else
          procChildrenGo pn ptag pattrs rest { s with out := s.out ++ [.text d1], trimLead := tl1 }

/-- `processNode` with fuel: non-elements are returned unchanged; an element
cleans its own attributes, applies the `b.verse-num` early trim, aborts the
verse context if a direct child is a copyright link, folds line groups, runs
the children loop, closes a trailing wrapper, re-attaches the rebuilt
children and finally trims terminal whitespace children of `p`/`span`
nodes. -/
def processNodeF : Nat → Node → String → Except GoErr (Node × String)
  | _, .text d, ref => .ok (.text d, ref)
  | 0, .elem _ _ _, _ => .error .outOfFuel
  | fuel + 1, .elem tag attrs ch, ref =>
    let attrs1 := cleanupAttrs tag attrs
    let ch1 := if tag == "b" && hasClass attrs1 "verse-num" then ch.map trimTextBoth else ch
    let ref1 := if ch1.any isCopyrightLink then "" else ref
    let ch2 := foldLineGroups ch1
    match procChildrenGo (processNodeF fuel) tag attrs1 ch2 ⟨[], none, false, ref1⟩ with
    | .error e => .error e
    | .ok s =>
      let s2 := closeWrapperStep s
      let newCh := if tag == "p" || tag == "span" then trimChildrenWS s2.out else s2.out
      .ok (.elem tag attrs1 newCh, s2.ref)

/-- The top-level driver loop of `processPassageHTML` (lines 41–67): skip
stray top-level end-line-group markers, thread the active reference across
siblings, unwrap paragraphs that contain a `section` (at top level the
children are only rendered, so no panic occurs), and drop empty
paragraphs. -/
def processPassageAux (fuel : Nat) : List Node → String → Except GoErr (List Node)
  | [], _ => .ok []
  | node :: rest, ref =>
    if isEndLineGroup node then processPassageAux fuel rest ref
    else
      match processNodeF fuel node ref with
      | .error e => .error e
      | .ok (n1, ref1) =>
        let outs :=
          if nodeTag n1 == "p" && hasSection n1 then nodeChildren n1
          else if nodeTag n1 == "p" && (nodeChildren n1).isEmpty then []
          else [n1]
        match processPassageAux fuel rest ref1 with
        | .error e => .error e
        | .ok outRest => .ok (outs ++ outRest)

/-- `processPassageHTML` after fragment parsing, up to serialization: the
transformed forest of top-level nodes. -/
def processPassage (fuel : Nat) (nodes : List Node) : Except GoErr (List Node) :=
  processPassageAux fuel nodes ""

/-! ## Observers used by the specification statements -/

/-- The tokens of the first `class` attribute (the attribute the class
utilities edit). -/
def classTokens (attrs : List Attr) : List String :=
  match getAttr attrs "class" with
  | some v => goFields v
  | none => []

/-- Number of `class`-keyed attributes (the HTML parser produces at most
one). -/
def classAttrCount (attrs : List Attr) : Nat :=
  (attrs.filter fun a => a.key == "class").length

/-- An 8-digit verse reference. -/
def isValidRef (r : String) : Bool :=
  r.length == 8 && r.data.all Char.isDigit

/-- The verse-marker identifier pattern of the spec: `v`, exactly eight
digits, and an arbitrary trailing suffix. -/
def versePattern (v : String) : Prop :=
  ∃ r sfx, v = "v" ++ r ++ sfx ∧ r.length = 8 ∧ r.data.all Char.isDigit = true

/-- The exact attribute shape `createVerseWrapper` produces: a `span` whose
attributes are exactly `class="verse"` followed by a `data-ref`. -/
def isWrapperShape (t : String) (a : List Attr) : Bool :=
  t == "span" &&
    match a with
    | [a1, a2] => a1.key == "class" && a1.val == "verse" && a2.key == "data-ref"
    | _ => false

mutual
/-- No node of the subtree has the synthetic verse-wrapper shape (clean
upstream input). -/
def nodeNoWrapShape : Node → Bool
  | .text _ => true
  | .elem t a ch => !isWrapperShape t a && listNoWrapShape ch
/-- Forest version of `nodeNoWrapShape`. -/
def listNoWrapShape : List Node → Bool
  | [] => true
  | n :: ns => nodeNoWrapShape n && listNoWrapShape ns
end

mutual
/-- Every wrapper-shaped node of the subtree has at least one child. -/
def nodeWrapOK : Node → Bool
  | .text _ => true
  | .elem t a ch => (!isWrapperShape t a || !ch.isEmpty) && listWrapOK ch
/-- Forest version of `nodeWrapOK`. -/
def listWrapOK : List Node → Bool
  | [] => true
  | n :: ns => nodeWrapOK n && listWrapOK ns
end

mutual
/-- Some node of the subtree (including the root) satisfies `p`. -/
def nodeHasMatch (p : Node → Bool) : Node → Bool
  | .text d => p (.text d)
  | .elem t a ch => p (.elem t a ch) || listHasMatch p ch
/-- Some node of the forest satisfies `p`. -/
def listHasMatch (p : Node → Bool) : List Node → Bool
  | [] => false
  | n :: ns => nodeHasMatch p n || listHasMatch p ns
end

/-- A `span` carrying class `verse` and `data-ref` equal to `r`. -/
def isVerseTaggedWithRef (r : String) (n : Node) : Bool :=
  nodeTag n == "span" && hasClass (nodeAttrs n) "verse" &&
    getAttr (nodeAttrs n) "data-ref" == some r

/-- A `span` with class `verse` whose last child is the text `d` (used to
observe the trailing-whitespace treatment of a closed wrapper). -/
def isVerseSpanWithLastText (d : String) (n : Node) : Bool :=
  nodeTag n == "span" && hasClass (nodeAttrs n) "verse" &&
    match (nodeChildren n).getLast? with
    | some (.text e) => e == d
    | _ => false

/-! ## Basic lemmas about the character classes and trimming -/

theorem cutset_isSpace {c : Char} (h : isCutsetChar c = true) : goIsSpace c = true := by
  simp only [isCutsetChar, Bool.or_eq_true, beq_iff_eq] at h
  rcases h with (((h | h) | h) | h) | h <;> subst h <;> decide

theorem all_goIsSpace_dropWhile_cutset (l : List Char) :
    ((l.dropWhile isCutsetChar).all goIsSpace) = l.all goIsSpace := by
  induction l with
  | nil => rfl
  | cons c l ih =>
    by_cases h : isCutsetChar c = true
    · simp [List.dropWhile_cons, h, ih, cutset_isSpace h]
    · simp [List.dropWhile_cons, Bool.of_not_eq_true h]

theorem wsOnly_goTrimLeft (s : String) : wsOnly (goTrimLeft s) = wsOnly s := by
  simpa [wsOnly, goTrimLeft] using all_goIsSpace_dropWhile_cutset s.data

theorem wsOnly_goTrimRight (s : String) : wsOnly (goTrimRight s) = wsOnly s := by
  simp only [wsOnly, goTrimRight]
  rw [List.all_reverse, all_goIsSpace_dropWhile_cutset, List.all_reverse]

theorem wsOnly_empty : wsOnly "" = true := rfl

theorem goTrimRight_ne_empty {s : String} (h : wsOnly s = false) : ¬ goTrimRight s = "" := by
  intro heq
  have h2 : wsOnly (goTrimRight s) = wsOnly s := wsOnly_goTrimRight s
  rw [heq, wsOnly_empty, h] at h2
  exact Bool.noConfusion h2

theorem goTrimLeft_ne_empty {s : String} (h : wsOnly s = false) : ¬ goTrimLeft s = "" := by
  intro heq
  have h2 : wsOnly (goTrimLeft s) = wsOnly s := wsOnly_goTrimLeft s
  rw [heq, wsOnly_empty, h] at h2
  exact Bool.noConfusion h2

theorem length_pos_of_ne_empty {s : String} (h : ¬ s = "") : 0 < s.length := by
  cases s with
  | mk l =>
    cases l with
    | nil => exact absurd rfl h
    | cons c l => simp [String.length]

-- the Bool-valued versions that appear in branch conditions
theorem beq_empty_false_of_ne {s : String} (h : ¬ s = "") : (s == "") = false := by
  simpa using h

/-! ## Verse-identifier pattern lemmas -/

theorem string_length_data (s : String) : s.length = s.data.length := rfl

theorem matchVerseID_valid (r sfx : String) (h : isValidRef r = true) :
    matchVerseID ("v" ++ r ++ sfx) = some r := by
  obtain ⟨hlen, hdig⟩ : (r.length == 8) = true ∧ r.data.all Char.isDigit = true := by
    simpa [isValidRef, Bool.and_eq_true] using h
  have hlen8 : r.data.length = 8 := beq_iff_eq.mp hlen
  have hdata : ("v" ++ r ++ sfx).data = 'v' :: (r.data ++ sfx.data) := by
    cases r with
    | mk rl => cases sfx with
      | mk sl => rfl
  have htake : (r.data ++ sfx.data).take 8 = r.data := by
    rw [← hlen8]
    exact List.take_left r.data sfx.data
  have hcond : ((r.data ++ sfx.data).length ≥ 8 && ((r.data ++ sfx.data).take 8).all Char.isDigit) = true := by
    rw [htake, hdig]
    simp [List.length_append, hlen8]
  rw [htake] at hcond
  unfold matchVerseID
  rw [hdata]
  simp only [htake, hcond, if_true]

theorem isValidRef_ne_empty {r : String} (h : isValidRef r = true) : ¬ r = "" := by
  intro heq
  subst heq
  exact Bool.noConfusion h

theorem trimTextBoth_copyright (x : Node) :
    isCopyrightLink (trimTextBoth x) = isCopyrightLink x := by
  cases x <;> rfl

/-- C10: when a node's direct children contain the copyright link
(`a.copyright`), the active verse reference is discarded before the children
are processed — the node is transformed exactly as it would be with no active
reference at all. -/
theorem claim_C10_copyright_discards_ref (fuel : Nat) (n : Node) (ref : String)
    (h : (nodeChildren n).any isCopyrightLink = true) :
    processNodeF fuel n ref = processNodeF fuel n "" := by
  cases n with
  | text d => simp [nodeChildren] at h
  | elem tag attrs ch =>
    cases fuel with
    | zero => rfl
    | succ fuel =>
      have hch1 : ∀ b : Bool,
          ((if b then ch.map trimTextBoth else ch).any isCopyrightLink) = true := by
        intro b
        cases b
        · simpa [nodeChildren] using h
        · rw [if_pos rfl, List.any_map]
          have hco : (isCopyrightLink ∘ trimTextBoth) = isCopyrightLink := by
            funext x
            exact trimTextBoth_copyright x
          rw [hco]
          simpa [nodeChildren] using h
      simp only [processNodeF, hch1, if_true]

/-! ## Lemmas about `strings.Fields` and the class utilities -/

theorem fieldsAux_all_nonspace :
    ∀ (l cur : List Char), (∀ c ∈ l, goIsSpace c = false) →
      fieldsAux cur l =
        if cur.isEmpty && l.isEmpty then [] else [String.mk (cur.reverse ++ l)] := by
  intro l
  induction l with
  | nil =>
    intro cur _
    simp only [fieldsAux, List.isEmpty_nil, Bool.and_true, List.append_nil]
  | cons c rest ih =>
    intro cur h
    have hc : goIsSpace c = false := h c (by simp)
    simp only [fieldsAux, hc, Bool.false_eq_true, if_false]
    rw [ih (c :: cur) (fun x hx => h x (by simp [hx]))]
    simp [List.reverse_cons, List.append_assoc]

theorem data_ne_of_ne_empty {t : String} (h : (t == "") = false) : t.data.isEmpty = false := by
  cases t with
  | mk l =>
    cases l with
    | nil => simp at h
    | cons c l => rfl

theorem goFields_token {t : String} (h : isToken t = true) : goFields t = [t] := by
  obtain ⟨hne, hall⟩ : (t == "") = false ∧ t.data.all (fun c => !goIsSpace c) = true := by
    simpa only [isToken, Bool.and_eq_true, Bool.not_eq_true'] using h
  have hns : ∀ c ∈ t.data, goIsSpace c = false := by
    intro c hc
    simpa using List.all_eq_true.mp hall c hc
  unfold goFields
  rw [fieldsAux_all_nonspace t.data [] hns]
  simp only [List.isEmpty_nil, data_ne_of_ne_empty hne, Bool.true_and, Bool.false_eq_true,
    if_false, List.reverse_nil, List.nil_append]

theorem fieldsAux_space_split :
    ∀ (xs cur ys : List Char),
      fieldsAux cur (xs ++ ' ' :: ys) = fieldsAux cur xs ++ fieldsAux [] ys := by
  intro xs
  induction xs with
  | nil =>
    intro cur ys
    by_cases hcur : cur.isEmpty = true
    · simp [fieldsAux, hcur, show goIsSpace ' ' = true from rfl]
    · have hcur2 : cur.isEmpty = false := by simpa using hcur
      simp [fieldsAux, hcur2, show goIsSpace ' ' = true from rfl]
  | cons x xs ih =>
    intro cur ys
    by_cases hx : goIsSpace x = true
    · by_cases hcur : cur.isEmpty = true
      · simp only [List.cons_append, fieldsAux, hx, hcur, if_true]
        exact ih [] ys
      · have hcur2 : cur.isEmpty = false := by simpa using hcur
        simp only [List.cons_append, fieldsAux, hx, hcur2, if_true, Bool.false_eq_true, if_false]
        exact congrArg (List.cons (String.mk cur.reverse)) (ih [] ys)
    · have hx2 : goIsSpace x = false := by simpa using hx
      simp only [List.cons_append, fieldsAux, hx2, Bool.false_eq_true, if_false]
      exact ih (x :: cur) ys

theorem goFields_append_space (a b : String) :
    goFields (a ++ " " ++ b) = goFields a ++ goFields b := by
  have hdata : (a ++ " " ++ b).data = a.data ++ ' ' :: b.data := by
    cases a with
    | mk la =>
      cases b with
      | mk lb =>
        show (la ++ [' ']) ++ lb = la ++ ' ' :: lb
        simp [List.append_assoc]
  unfold goFields
  rw [hdata]
  exact fieldsAux_space_split a.data [] b.data

theorem mk_beq_empty_false {l : List Char} (h : l ≠ []) : (String.mk l == "") = false := by
  rw [beq_eq_false_iff_ne]
  intro heq
  apply h
  have h2 : l = ("" : String).data := congrArg String.data heq
  simpa using h2

theorem mem_fieldsAux_isToken :
    ∀ (l cur : List Char), (∀ c ∈ cur, goIsSpace c = false) →
      ∀ t ∈ fieldsAux cur l, isToken t = true := by
  intro l
  induction l with
  | nil =>
    intro cur hcur t ht
    by_cases h : cur.isEmpty = true
    · simp [fieldsAux, h] at ht
    · have h2 : cur.isEmpty = false := by simpa using h
      simp only [fieldsAux, h2, Bool.false_eq_true, if_false, List.mem_singleton] at ht
      subst ht
      have hne : cur ≠ [] := by simpa [List.isEmpty_eq_false] using h2
      simp only [isToken, Bool.and_eq_true, Bool.not_eq_true']
      constructor
      · exact mk_beq_empty_false (by simpa [List.reverse_eq_nil_iff] using hne)
      · rw [List.all_eq_true]
        intro c hc
        simp only [List.mem_reverse] at hc
        simp [hcur c hc]
  | cons c rest ih =>
    intro cur hcur t ht
    by_cases hc : goIsSpace c = true
    · simp only [fieldsAux, hc, if_true] at ht
      by_cases h : cur.isEmpty = true
      · rw [if_pos h] at ht
        exact ih [] (by simp) t ht
      · have h2 : cur.isEmpty = false := by simpa using h
        rw [if_neg (by simp [h2])] at ht
        rcases List.mem_cons.mp ht with heq | hmem
        · subst heq
          have hne : cur ≠ [] := by simpa [List.isEmpty_eq_false] using h2
          simp only [isToken, Bool.and_eq_true, Bool.not_eq_true']
          constructor
          · exact mk_beq_empty_false (by simpa [List.reverse_eq_nil_iff] using hne)
          · rw [List.all_eq_true]
            intro x hx
            simp only [List.mem_reverse] at hx
            simp [hcur x hx]
        · exact ih [] (by simp) t hmem
    · have hc2 : goIsSpace c = false := by simpa using hc
      simp only [fieldsAux, hc2, Bool.false_eq_true, if_false] at ht
      refine ih (c :: cur) ?_ t ht
      intro x hx
      rcases List.mem_cons.mp hx with heq | hmem
      · subst heq; exact hc2
      · exact hcur x hmem

theorem mem_goFields_isToken {s t : String} (h : t ∈ goFields s) : isToken t = true :=
  mem_fieldsAux_isToken s.data [] (by simp) t h

theorem goFields_joinSpace :
    ∀ (l : List String), (∀ t ∈ l, isToken t = true) → goFields (joinSpace l) = l := by
  intro l
  induction l with
  | nil => intro _; rfl
  | cons t rest ih =>
    intro h
    cases rest with
    | nil =>
      show goFields t = [t]
      exact goFields_token (h t (by simp))
    | cons r rs =>
      show goFields (t ++ " " ++ joinSpace (r :: rs)) = t :: r :: rs
      rw [goFields_append_space, goFields_token (h t (by simp)),
        ih (fun x hx => h x (by simp [hx]))]
      rfl

theorem hasClass_implies_anyClass {attrs : List Attr} {c : String}
    (h : hasClass attrs c = true) : (attrs.any fun a => a.key == "class") = true := by
  induction attrs with
  | nil => exact Bool.noConfusion h
  | cons a rest ih =>
    simp only [hasClass, List.any_cons, Bool.or_eq_true, Bool.and_eq_true] at h ⊢
    rcases h with ⟨hk, _⟩ | h
    · exact Or.inl hk
    · exact Or.inr (ih h)

theorem addClassAux_present {nc : String} :
    ∀ {attrs : List Attr}, (attrs.any fun a => a.key == "class") = true →
      addClassAux true nc attrs = attrs := by
  intro attrs
  induction attrs with
  | nil => intro h; exact Bool.noConfusion h
  | cons a rest ih =>
    intro h
    by_cases hk : (a.key == "class") = true
    · simp [addClassAux, hk]
    · have hk2 : (a.key == "class") = false := by simpa using hk
      have h2 : (rest.any fun a => a.key == "class") = true := by
        simpa [List.any_cons, hk2] using h
      simp [addClassAux, hk2, ih h2]

theorem addClass_present {attrs : List Attr} {c : String}
    (h : hasClass attrs c = true) : addClass attrs c = attrs := by
  unfold addClass
  rw [h]
  exact addClassAux_present (hasClass_implies_anyClass h)

theorem hasClass_addClassAux_false {attrs : List Attr} {c : String}
    (htok : isToken c = true) : hasClass (addClassAux false c attrs) c = true := by
  induction attrs with
  | nil =>
    simp [addClassAux, hasClass, goFields_token htok, List.contains_cons]
  | cons a rest ih =>
    by_cases hk : (a.key == "class") = true
    · simp only [addClassAux, hk, if_true, Bool.false_eq_true, if_false]
      simp only [hasClass, List.any_cons, Bool.or_eq_true, Bool.and_eq_true]
      refine Or.inl ⟨hk, ?_⟩
      rw [goFields_append_space, goFields_token htok]
      simp
    · have hk2 : (a.key == "class") = false := by simpa using hk
      simp only [addClassAux, hk2, Bool.false_eq_true, if_false]
      simp only [hasClass, List.any_cons, Bool.or_eq_true, Bool.and_eq_true]
      exact Or.inr (by simpa [hasClass] using ih)

theorem addClass_idem {attrs : List Attr} {c : String} (htok : isToken c = true) :
    addClass (addClass attrs c) c = addClass attrs c := by
  by_cases hp : hasClass attrs c = true
  · rw [addClass_present hp, addClass_present hp]
  · have hp2 : hasClass attrs c = false := by simpa using hp
    have h1 : addClass attrs c = addClassAux false c attrs := by
      unfold addClass; rw [hp2]
    rw [h1]
    have h2 : hasClass (addClassAux false c attrs) c = true := hasClass_addClassAux_false htok
    exact addClass_present h2

theorem removeClass_absent {c : String} :
    ∀ {attrs : List Attr}, hasClass attrs c = false → removeClass attrs c = attrs := by
  intro attrs
  induction attrs with
  | nil => intro _; rfl
  | cons a rest ih =>
    intro h
    simp only [hasClass, List.any_cons, Bool.or_eq_true, Bool.and_eq_true] at h
    rw [Bool.or_eq_false_iff] at h
    obtain ⟨ha, hrest⟩ := h
    by_cases hk : (a.key == "class") = true
    · have hcont : ((goFields a.val).contains c) = false := by
        rcases Bool.and_eq_false_iff.mp ha with h1 | h1
        · exact absurd hk (by simp [h1])
        · exact h1
      simp only [removeClass, hk, if_true, hcont, Bool.false_eq_true, if_false]
    · have hk2 : (a.key == "class") = false := by simpa using hk
      simp [removeClass, hk2, ih (by simpa [hasClass] using hrest)]

theorem classTokens_cons_class (k v : String) (rest : List Attr)
    (hk : (k == "class") = true) : classTokens (⟨k, v⟩ :: rest) = goFields v := by
  simp [classTokens, getAttr, hk]

theorem classTokens_cons_other (k v : String) (rest : List Attr)
    (hk : (k == "class") = false) : classTokens (⟨k, v⟩ :: rest) = classTokens rest := by
  simp [classTokens, getAttr, hk]

theorem classTokens_addClass {c : String} (htok : isToken c = true) :
    ∀ {attrs : List Attr}, hasClass attrs c = false →
      classTokens (addClass attrs c) = classTokens attrs ++ [c] := by
  intro attrs
  induction attrs with
  | nil =>
    intro _
    show classTokens (addClass [] c) = [] ++ [c]
    have h1 : addClass [] c = [⟨"class", c⟩] := rfl
    rw [h1, classTokens_cons_class "class" c [] (by rfl), goFields_token htok]
    rfl
  | cons a rest ih =>
    obtain ⟨ak, av⟩ := a
    intro habs
    have haux : addClass (⟨ak, av⟩ :: rest) c = addClassAux false c (⟨ak, av⟩ :: rest) := by
      unfold addClass
      rw [habs]
    rw [haux]
    have hrest : hasClass rest c = false := by
      have h2 := habs
      simp only [hasClass, List.any_cons, Bool.or_eq_false_iff] at h2
      simpa [hasClass] using h2.2
    by_cases hk : (ak == "class") = true
    · simp only [addClassAux, hk, if_true, Bool.false_eq_true, if_false]
      rw [classTokens_cons_class ak (av ++ " " ++ c) rest hk,
        classTokens_cons_class ak av rest hk,
        goFields_append_space, goFields_token htok]
    · have hk2 : (ak == "class") = false := by simpa using hk
      simp only [addClassAux, hk2, Bool.false_eq_true, if_false]
      rw [classTokens_cons_other ak av (addClassAux false c rest) hk2,
        classTokens_cons_other ak av rest hk2]
      have h2 : addClassAux false c rest = addClass rest c := by
        unfold addClass
        rw [hrest]
      rw [h2]
      exact ih hrest

theorem getAttr_class_none_of_count_zero :
    ∀ {attrs : List Attr}, classAttrCount attrs = 0 → getAttr attrs "class" = none := by
  intro attrs
  induction attrs with
  | nil => intro _; rfl
  | cons a rest ih =>
    intro h
    by_cases hk : (a.key == "class") = true
    · exfalso
      simp [classAttrCount, List.filter_cons, hk] at h
    · have hk2 : (a.key == "class") = false := by simpa using hk
      have h2 : classAttrCount rest = 0 := by
        simpa [classAttrCount, List.filter_cons, hk2] using h
      simp [getAttr, hk2, ih h2]

theorem classTokens_removeClass {c : String} :
    ∀ {attrs : List Attr}, classAttrCount attrs ≤ 1 →
      classTokens (removeClass attrs c) = (classTokens attrs).filter (fun f => f ≠ c) := by
  intro attrs
  induction attrs with
  | nil => intro _; rfl
  | cons a rest ih =>
    obtain ⟨ak, av⟩ := a
    intro hcount
    by_cases hk : (ak == "class") = true
    · have hrest0 : classAttrCount rest = 0 := by
        simp only [classAttrCount, List.filter_cons, hk, if_true, List.length_cons] at hcount
        simpa [classAttrCount] using Nat.le_of_succ_le_succ hcount
      by_cases hcont : ((goFields av).contains c) = true
      · by_cases hemp : ((goFields av).filter (fun f => f ≠ c)).isEmpty = true
        · have hrw : removeClass (⟨ak, av⟩ :: rest) c = rest := by
            simp only [removeClass, hk, if_true, hcont, hemp]
          rw [hrw, classTokens_cons_class ak av rest hk]
          rw [List.isEmpty_iff] at hemp
          rw [hemp]
          simp [classTokens, getAttr_class_none_of_count_zero hrest0]
        · have hemp2 : ((goFields av).filter (fun f => f ≠ c)).isEmpty = false := by
            simpa using hemp
          have hrw : removeClass (⟨ak, av⟩ :: rest) c =
              ⟨ak, joinSpace ((goFields av).filter (fun f => f ≠ c))⟩ :: rest := by
            simp only [removeClass, hk, if_true, hcont, hemp2, Bool.false_eq_true, if_false]
          rw [hrw, classTokens_cons_class ak _ rest hk, classTokens_cons_class ak av rest hk]
          refine goFields_joinSpace _ ?_
          intro t ht
          exact mem_goFields_isToken (List.mem_of_mem_filter ht)
      · have hcont2 : ((goFields av).contains c) = false := by simpa using hcont
        have hrw : removeClass (⟨ak, av⟩ :: rest) c = ⟨ak, av⟩ :: rest := by
          simp only [removeClass, hk, if_true, hcont2, Bool.false_eq_true, if_false]
        rw [hrw, classTokens_cons_class ak av rest hk]
        have hnm : c ∉ goFields av := by
          intro hmem
          rw [List.contains_eq_any_beq] at hcont2
          simp [List.any_eq_true] at hcont2
          exact hcont2 c hmem rfl
        refine (List.filter_eq_self.mpr ?_).symm
        intro x hx
        simp only [ne_eq, decide_not, Bool.not_eq_eq_eq_not, Bool.not_true, decide_eq_false_iff_not]
        intro heq
        subst heq
        exact hnm hx
    · have hk2 : (ak == "class") = false := by simpa using hk
      have hrest : classAttrCount rest ≤ 1 := by
        simpa [classAttrCount, List.filter_cons, hk2] using hcount
      have hrw : removeClass (⟨ak, av⟩ :: rest) c = ⟨ak, av⟩ :: removeClass rest c := by
        simp only [removeClass, hk2, Bool.false_eq_true, if_false]
      rw [hrw, classTokens_cons_other ak av (removeClass rest c) hk2,
        classTokens_cons_other ak av rest hk2]
      exact ih hrest

theorem processNode_marker_prose (fuel : Nat) (r sfx t : String)
    (hv : isValidRef r = true) (hw : wsOnly t = false) :
    processNodeF (fuel+1) (.elem "p" [] [.elem "b" [⟨"id", "v" ++ r ++ sfx⟩] [.text "1"], .text t]) ""
      = .ok (.elem "p" []
          [createVerseWrapper r [.elem "b" [] [.text "1"], .text (goTrimRight (goTrimLeft t))]], r) := by
  have hm : matchVerseID ("v" ++ r ++ sfx) = some r := matchVerseID_valid r sfx hv
  have hrne : ¬ r = "" := isValidRef_ne_empty hv
  have h1 : wsOnly (goTrimLeft t) = false := by rw [wsOnly_goTrimLeft]; exact hw
  have hlen : 0 < (goTrimLeft t).length := by
    apply length_pos_of_ne_empty
    exact goTrimLeft_ne_empty hw
  have h2 : ¬ goTrimRight (goTrimLeft t) = "" := goTrimRight_ne_empty h1
  simp only [processNodeF, procChildrenGo, cleanupAttrs, cleanupNode, foldLineGroups, foldLGAux,
    closeSec, getVerseRef, getVerseRefAttrs, hm, cleanVerseMarker, closeWrapperStep,
    createVerseWrapper, trimTextBoth, isCopyrightLink, isBeginLineGroup, isEndLineGroup,
    isStylizedLine, isBlockTag, hasClass, goFields, fieldsAux, nodeTag, nodeAttrs, nodeChildren,
    appendChild, trimTrailingWS, trimChildrenWS, trimChildrenWSF, tcwLeftGo, tcwRightGo, wsOnly, removeAttr, removeClass,
    getAttr, h1, hlen, h2, hrne]
  simp [hrne, h2, hlen, trimTrailingWhitespace, trimTrailingWS, nodeChildren,
    List.getLast?, trimChildrenWSF, tcwLeftGo, tcwRightGo]

/-! ## Claim theorems -/

/-- C9: the class utilities are idempotent and order-preserving: adding an
already-present token or removing an absent one leaves the attribute list
unchanged, `addClass` is idempotent for well-formed tokens, and both
operations preserve the relative order of the remaining tokens of the
(first) `class` attribute (`removeClass` assumes the parser's at-most-one
`class` attribute). -/
theorem claim_C9_class_utils :
    (∀ (attrs : List Attr) (c : String), hasClass attrs c = true → addClass attrs c = attrs)
  ∧ (∀ (attrs : List Attr) (c : String), isToken c = true →
      addClass (addClass attrs c) c = addClass attrs c)
  ∧ (∀ (attrs : List Attr) (t : String), hasClass attrs t = false → removeClass attrs t = attrs)
  ∧ (∀ (attrs : List Attr) (c : String), isToken c = true → hasClass attrs c = false →
      classTokens (addClass attrs c) = classTokens attrs ++ [c])
  ∧ (∀ (attrs : List Attr) (t : String), classAttrCount attrs ≤ 1 →
      classTokens (removeClass attrs t) = (classTokens attrs).filter (fun f => f ≠ t)) :=
  ⟨fun _ _ h => addClass_present h,
   fun _ _ h => addClass_idem h,
   fun _ _ h => removeClass_absent h,
   fun _ _ ht h => classTokens_addClass ht h,
   fun _ _ h => classTokens_removeClass h⟩

/-- Witness for C9 at concrete attribute lists. -/
theorem claim_C9_class_utils_witness :
    addClass [⟨"class", "line verse"⟩] "verse" = [⟨"class", "line verse"⟩]
  ∧ addClass (addClass [⟨"id", "x"⟩] "verse") "verse" = addClass [⟨"id", "x"⟩] "verse"
  ∧ removeClass [⟨"class", "line"⟩] "virtual" = [⟨"class", "line"⟩]
  ∧ classTokens (addClass [⟨"class", "indent line"⟩] "verse") = ["indent", "line", "verse"]
  ∧ classTokens (removeClass [⟨"class", "indent line virtual"⟩] "virtual") = ["indent", "line"] :=
  ⟨claim_C9_class_utils.1 _ _ (by decide),
   claim_C9_class_utils.2.1 _ _ (by decide),
   claim_C9_class_utils.2.2.1 _ _ (by decide),
   by rw [claim_C9_class_utils.2.2.2.1 _ _ (by decide) (by decide)]; decide,
   by rw [claim_C9_class_utils.2.2.2.2 _ _ (by decide)]; decide⟩

/-- Witness for C10: a paragraph whose children contain the copyright link is
processed identically under a stale active reference and under none. -/
theorem claim_C10_copyright_discards_ref_witness :
    (nodeChildren (.elem "p" [] [.elem "a" [⟨"class", "copyright"⟩] [.text "ESV"],
        .text "x"])).any isCopyrightLink = true
  ∧ processNodeF 2 (.elem "p" [] [.elem "a" [⟨"class", "copyright"⟩] [.text "ESV"],
        .text "x"]) "44002003"
      = processNodeF 2 (.elem "p" [] [.elem "a" [⟨"class", "copyright"⟩] [.text "ESV"],
        .text "x"]) "" :=
  ⟨by decide, claim_C10_copyright_discards_ref 2 _ "44002003" (by decide)⟩

/-- C1 (counterexample): on the spec's scenario input the transform produces
no element with `data-ref="01002017"` at all; the reference written in the
spec does not match the marker identifier `v01001001`. -/
theorem claim_C1_counterexample :
    processPassage 5
      [.elem "p" [] [.elem "b" [⟨"id", "v01001001"⟩] [.text "1"], .text " In the beginning."]]
    = .ok [.elem "p" [] [createVerseWrapper "01001001"
        [.elem "b" [] [.text "1"], .text "In the beginning."]]]
  ∧ listHasMatch (isVerseTaggedWithRef "01002017")
      [.elem "p" [] [createVerseWrapper "01001001"
        [.elem "b" [] [.text "1"], .text "In the beginning."]]] = false :=
  ⟨rfl, by decide⟩

/-- C1 (amended): the scenario input produces a wrapper with class `verse`
and `data-ref="01001001"` (the marker's own reference) whose first child is
the marker with its identifier stripped, followed immediately by the text
with the leading space removed. -/
theorem claim_C1_verse_wrap_amended :
    processPassage 5
      [.elem "p" [] [.elem "b" [⟨"id", "v01001001"⟩] [.text "1"], .text " In the beginning."]]
    = .ok [.elem "p" [] [createVerseWrapper "01001001"
        [.elem "b" [] [.text "1"], .text "In the beginning."]]] := rfl

/-- C2: the transform is NOT total on well-formed fragment input: a nested
paragraph that, after processing, contains a line-group section is unwrapped
by promoting children that are still attached to the paragraph, and the
re-attach loop's `AppendChild` panics on them.  The modelled transform hits
exactly that panic. -/
theorem claim_C2_nested_unwrap_panics :
    processPassage 5
      [.elem "div" []
        [.elem "p" []
          [.elem "span" [⟨"class", "begin-line-group"⟩] [],
           .elem "span" [⟨"class", "line"⟩] [.text "x"],
           .elem "span" [⟨"class", "end-line-group"⟩] []]]]
    = .error .panicAttached := rfl

/-- C7 (counterexample): an unmatched end-line-group marker is not passed
through unmodified — it is dropped from the output entirely (though no error
is raised). -/
theorem claim_C7_counterexample :
    processPassage 5
      [.elem "p" [] [.text "a", .elem "span" [⟨"class", "end-line-group"⟩] [], .text "b"]]
    = .ok [.elem "p" [] [.text "a", .text "b"]]
  ∧ listHasMatch isEndLineGroup [.elem "p" [] [.text "a", .text "b"]] = false :=
  ⟨rfl, by decide⟩

theorem foldLGAux_no_markers :
    ∀ (rest done acc : List Node),
      (∀ c ∈ rest, isBeginLineGroup c = false ∧ isEndLineGroup c = false) →
      foldLGAux closeSec rest done (some acc) = done ++ [mkSection (acc ++ rest)] := by
  intro rest
  induction rest with
  | nil => intro done acc _; simp [foldLGAux, closeSec]
  | cons c rest ih =>
    intro done acc h
    obtain ⟨hb, he⟩ := h c (by simp)
    simp only [foldLGAux, hb, he, Bool.false_eq_true, if_false]
    rw [ih done (acc ++ [c]) (fun x hx => h x (by simp [hx]))]
    simp [List.append_assoc]

/-- C7 (amended): unmatched line-group markers raise no error, but they are
not passed through unmodified: a stray end marker is silently dropped, and a
stray begin marker is replaced by a line-group section that swallows all the
following siblings; the whole transform still succeeds on such input. -/
theorem claim_C7_amended_unmatched_linegroup :
    (∀ (e : Node) (rest : List Node), isEndLineGroup e = true → isBeginLineGroup e = false →
        foldLineGroups (e :: rest) = foldLineGroups rest)
  ∧ (∀ (b : Node) (rest : List Node), isBeginLineGroup b = true →
        (∀ c ∈ rest, isBeginLineGroup c = false ∧ isEndLineGroup c = false) →
        foldLineGroups (b :: rest) = [mkSection rest])
  ∧ processPassage 5 [.elem "p" [] [.elem "span" [⟨"class", "begin-line-group"⟩] [], .text "x"]]
      = .ok [mkSection [.text "x"]] := by
  refine ⟨?_, ?_, rfl⟩
  · intro e rest he hb
    simp [foldLineGroups, foldLGAux, hb, he, closeSec]
  · intro b rest hb h
    simp only [foldLineGroups, foldLGAux, hb, if_true, closeSec, List.nil_append]
    rw [foldLGAux_no_markers rest [] [] h]
    simp

/-- Witness for C7 (amended) at concrete marker nodes. -/
theorem claim_C7_amended_unmatched_linegroup_witness :
    foldLineGroups [.elem "span" [⟨"class", "end-line-group"⟩] [], .text "y"]
      = foldLineGroups [.text "y"]
  ∧ foldLineGroups [.elem "span" [⟨"class", "begin-line-group"⟩] [], .text "y"]
      = [mkSection [.text "y"]] :=
  ⟨claim_C7_amended_unmatched_linegroup.1 _ _ (by decide) (by decide),
   claim_C7_amended_unmatched_linegroup.2.1 _ _ (by decide) (by decide)⟩

/-! ### C6: verse-marker detection -/

theorem matchVerseID_some (v r : String) (h : matchVerseID v = some r) :
    versePattern v ∧ isValidRef r := by
  unfold matchVerseID at h
  split at h
  · next c rest heq =>
    split at h
    · next hcond =>
      have hr : r = String.mk (rest.take 8) := (Option.some_inj.mp h).symm
      subst hr
      obtain ⟨hlen, hdig⟩ : (rest.length ≥ 8) ∧ (rest.take 8).all Char.isDigit = true := by
        simpa using hcond
      have hlen8 : (rest.take 8).length = 8 := by
        rw [List.length_take]
        omega
      constructor
      · refine ⟨String.mk (rest.take 8), String.mk (rest.drop 8), ?_, ?_, ?_⟩
        · apply String.ext
          show v.data = ('v' :: (rest.take 8 ++ rest.drop 8) : List Char)
          rw [List.take_append_drop]
          exact heq
        · exact hlen8
        · exact hdig
      · simp [isValidRef, string_length_data, hlen8, hdig]
    · exact Option.noConfusion h
  · exact Option.noConfusion h

theorem versePattern_matchVerseID {v : String} (h : versePattern v) :
    ∃ r, matchVerseID v = some r := by
  obtain ⟨r, sfx, heq, hlen, hdig⟩ := h
  subst heq
  exact ⟨r, matchVerseID_valid r sfx (by simp [isValidRef, hlen, hdig])⟩

theorem matchVerseID_none_not_pattern {v : String} (h : matchVerseID v = none) :
    ¬ versePattern v := by
  intro hp
  obtain ⟨r, hr⟩ := versePattern_matchVerseID hp
  rw [h] at hr
  exact Option.noConfusion hr

theorem getVerseRefAttrs_ne_iff :
    ∀ attrs : List Attr,
      (¬ getVerseRefAttrs attrs = "") ↔ ∃ a ∈ attrs, a.key = "id" ∧ versePattern a.val := by
  intro attrs
  induction attrs with
  | nil => simp [getVerseRefAttrs]
  | cons a rest ih =>
    by_cases hk : (a.key == "id") = true
    · cases hm : matchVerseID a.val with
      | some r =>
        have hr : ¬ r = "" := isValidRef_ne_empty (matchVerseID_some _ _ hm).2
        have hstep : getVerseRefAttrs (a :: rest) = r := by
          simp [getVerseRefAttrs, hk, hm]
        rw [hstep]
        constructor
        · intro _
          exact ⟨a, by simp, by simpa using hk, (matchVerseID_some _ _ hm).1⟩
        · intro _
          exact hr
      | none =>
        have hstep : getVerseRefAttrs (a :: rest) = getVerseRefAttrs rest := by
          simp [getVerseRefAttrs, hk, hm]
        rw [hstep, ih]
        constructor
        · rintro ⟨b, hb, hkey, hpat⟩
          exact ⟨b, by simp [hb], hkey, hpat⟩
        · rintro ⟨b, hb, hkey, hpat⟩
          rcases List.mem_cons.mp hb with heq | hmem
          · subst heq
            exact absurd hpat (matchVerseID_none_not_pattern hm)
          · exact ⟨b, hmem, hkey, hpat⟩
    · have hk2 : (a.key == "id") = false := by simpa using hk
      have hstep : getVerseRefAttrs (a :: rest) = getVerseRefAttrs rest := by
        simp [getVerseRefAttrs, hk2]
      rw [hstep, ih]
      constructor
      · rintro ⟨b, hb, hkey, hpat⟩
        exact ⟨b, by simp [hb], hkey, hpat⟩
      · rintro ⟨b, hb, hkey, hpat⟩
        rcases List.mem_cons.mp hb with heq | hmem
        · subst heq
          exact absurd hkey (by simpa using hk2)
        · exact ⟨b, hmem, hkey, hpat⟩

theorem getVerseRefAttrs_first :
    ∀ (pre : List Attr) (r sfx : String) (post : List Attr), isValidRef r = true →
      (∀ b ∈ pre, b.key = "id" → ¬ versePattern b.val) →
      getVerseRefAttrs (pre ++ ⟨"id", "v" ++ r ++ sfx⟩ :: post) = r := by
  intro pre
  induction pre with
  | nil =>
    intro r sfx post hv _
    simp [getVerseRefAttrs, matchVerseID_valid r sfx hv]
  | cons b pre ih =>
    intro r sfx post hv h
    by_cases hk : (b.key == "id") = true
    · have hnp : ¬ versePattern b.val := h b (by simp) (by simpa using hk)
      have hm : matchVerseID b.val = none := by
        cases hm2 : matchVerseID b.val with
        | none => rfl
        | some x => exact absurd (matchVerseID_some _ _ hm2).1 hnp
      simp only [List.cons_append, getVerseRefAttrs, hk, if_true, hm]
      exact ih r sfx post hv (fun x hx => h x (by simp [hx]))
    · have hk2 : (b.key == "id") = false := by simpa using hk
      simp only [List.cons_append, getVerseRefAttrs, hk2, Bool.false_eq_true, if_false]
      exact ih r sfx post hv (fun x hx => h x (by simp [hx]))

/-- C6: an element is treated as a verse marker exactly when some `id`
attribute matches `v` + eight digits + optional suffix; the eight-digit
capture of the first matching `id` attribute (suffix discarded) is the
reference; and the reference is captured before the element's attribute
cleanup strips the `id`, as the end-to-end family in the third conjunct
shows (the output wrapper carries the reference while the marker has lost
its `id`). -/
theorem claim_C6_marker_detection :
    (∀ n : Node, (¬ getVerseRef n = "") ↔ ∃ a ∈ nodeAttrs n, a.key = "id" ∧ versePattern a.val)
  ∧ (∀ (pre : List Attr) (r sfx : String) (post : List Attr), isValidRef r = true →
      (∀ b ∈ pre, b.key = "id" → ¬ versePattern b.val) →
      getVerseRefAttrs (pre ++ ⟨"id", "v" ++ r ++ sfx⟩ :: post) = r)
  ∧ (∀ (fuel : Nat) (r sfx t : String), isValidRef r = true → wsOnly t = false →
      processNodeF (fuel + 1)
        (.elem "p" [] [.elem "b" [⟨"id", "v" ++ r ++ sfx⟩] [.text "1"], .text t]) ""
      = .ok (.elem "p" [] [createVerseWrapper r
          [.elem "b" [] [.text "1"], .text (goTrimRight (goTrimLeft t))]], r)) := by
  refine ⟨?_, getVerseRefAttrs_first, processNode_marker_prose⟩
  intro n
  cases n with
  | text d => simp [getVerseRef, nodeAttrs]
  | elem t a ch => simpa [getVerseRef, nodeAttrs] using getVerseRefAttrs_ne_iff a

/-- Witness for C6 at a concrete marker (with a non-matching `id` first). -/
theorem claim_C6_marker_detection_witness :
    (¬ getVerseRef (.elem "b" [⟨"id", "v01001001-1"⟩] []) = "")
  ∧ getVerseRefAttrs ([⟨"id", "chapter-1"⟩] ++ ⟨"id", "v" ++ "01001001" ++ "-1"⟩ :: []) = "01001001"
  ∧ processNodeF 1
      (.elem "p" [] [.elem "b" [⟨"id", "v" ++ "01001001" ++ "-1"⟩] [.text "1"], .text " In."]) ""
    = .ok (.elem "p" [] [createVerseWrapper "01001001"
        [.elem "b" [] [.text "1"], .text (goTrimRight (goTrimLeft " In."))]], "01001001") := by
  refine ⟨(claim_C6_marker_detection.1 _).mpr
      ⟨⟨"id", "v01001001-1"⟩, by simp [nodeAttrs], rfl,
        "01001001", "-1", by decide, by decide, by decide⟩,
    claim_C6_marker_detection.2.1 [⟨"id", "chapter-1"⟩] "01001001" "-1" [] (by decide) ?_,
    claim_C6_marker_detection.2.2 0 "01001001" "-1" " In." (by decide) (by decide)⟩
  intro b hb _
  have hbe : b = ⟨"id", "chapter-1"⟩ := by simpa using hb
  subst hbe
  exact matchVerseID_none_not_pattern rfl

/-- C3: a verse opened by a marker in one paragraph and continued, unmarked,
in the next: each paragraph gets its own freshly opened wrapper and both
wrappers carry the same `data-ref`; no single wrapper spans the two
paragraphs. -/
theorem claim_C3_verse_across_blocks (fuel : Nat) (r sfx t1 t2 : String)
    (hv : isValidRef r = true) (h1 : wsOnly t1 = false) (h2 : wsOnly t2 = false) :
    processPassage (fuel + 1)
      [.elem "p" [] [.elem "b" [⟨"id", "v" ++ r ++ sfx⟩] [.text "1"], .text t1],
       .elem "p" [] [.text t2]]
    = .ok
      [.elem "p" [] [createVerseWrapper r
          [.elem "b" [] [.text "1"], .text (goTrimRight (goTrimLeft t1))]],
       .elem "p" [] [createVerseWrapper r [.text (goTrimRight t2)]]] := by
  have hm : matchVerseID ("v" ++ r ++ sfx) = some r := matchVerseID_valid r sfx hv
  have hrne : ¬ r = "" := isValidRef_ne_empty hv
  have h1l : wsOnly (goTrimLeft t1) = false := by rw [wsOnly_goTrimLeft]; exact h1
  have hlen : 0 < (goTrimLeft t1).length :=
    length_pos_of_ne_empty (goTrimLeft_ne_empty h1)
  have h1r : ¬ goTrimRight (goTrimLeft t1) = "" := goTrimRight_ne_empty h1l
  have h2r : ¬ goTrimRight t2 = "" := goTrimRight_ne_empty h2
  simp only [processPassage, processPassageAux, processNodeF, procChildrenGo, cleanupAttrs,
    cleanupNode, foldLineGroups, foldLGAux, closeSec, getVerseRef, getVerseRefAttrs,
    cleanVerseMarker, closeWrapperStep, createVerseWrapper, trimTextBoth, isCopyrightLink,
    isBeginLineGroup, isEndLineGroup, isStylizedLine, isBlockTag, hasClass, goFields, fieldsAux,
    nodeTag, nodeAttrs, nodeChildren, appendChild, trimTrailingWhitespace, trimTrailingWS,
    trimChildrenWS, trimChildrenWSF, tcwLeftGo, tcwRightGo, wsOnly, removeAttr, removeClass, getAttr, setAttr, addClass,
    addClassAux, hasSection, subtreeHasSection, listHasSection, List.getLast?, hm,
    h1l, hlen, h1r, h2r, hrne, h2]
  simp [processPassage, processPassageAux, processNodeF, procChildrenGo, cleanupAttrs,
    cleanupNode, foldLineGroups, foldLGAux, closeSec, getVerseRef, getVerseRefAttrs,
    cleanVerseMarker, closeWrapperStep, createVerseWrapper, trimTextBoth, isCopyrightLink,
    isBeginLineGroup, isEndLineGroup, isStylizedLine, isBlockTag, hasClass, goFields, fieldsAux,
    nodeTag, nodeAttrs, nodeChildren, appendChild, trimTrailingWhitespace, trimTrailingWS,
    trimChildrenWS, trimChildrenWSF, tcwLeftGo, tcwRightGo, wsOnly, removeAttr, removeClass, getAttr, setAttr, addClass,
    addClassAux, hasSection, subtreeHasSection, listHasSection, List.getLast?, hm,
    h1l, hlen, h1r, h2r, hrne, h2]

/-- Witness for C3 at a concrete verse reference and texts. -/
theorem claim_C3_verse_across_blocks_witness :
    processPassage 1
      [.elem "p" [] [.elem "b" [⟨"id", "v" ++ "23063008" ++ ""⟩] [.text "1"], .text " Start."],
       .elem "p" [] [.text "End."]]
    = .ok
      [.elem "p" [] [createVerseWrapper "23063008"
          [.elem "b" [] [.text "1"], .text (goTrimRight (goTrimLeft " Start."))]],
       .elem "p" [] [createVerseWrapper "23063008" [.text (goTrimRight "End.")]]] :=
  claim_C3_verse_across_blocks 0 "23063008" "" " Start." "End." (by decide) (by decide) (by decide)

set_option maxHeartbeats 2000000 in
/-- C4: poetic lines are tagged in place: a `span.line` containing a marker,
and the following unmarked `span.line`, both end up carrying class
`line verse` and `data-ref` equal to the governing reference, with no
wrapper span introduced inside either line (their children are exactly the
marker and the text). -/
theorem claim_C4_poetic_line_tagging (fuel : Nat) (r sfx num t1 t2 : String)
    (hv : isValidRef r = true) (h1 : wsOnly t1 = false) (h2 : wsOnly t2 = false) :
    processNodeF (fuel + 2)
      (.elem "p" [⟨"class", "block-indent"⟩]
        [.elem "span" [⟨"class", "line"⟩]
          [.elem "b" [⟨"id", "v" ++ r ++ sfx⟩] [.text num], .text t1],
         .elem "br" [] [],
         .elem "span" [⟨"class", "line"⟩] [.text t2]]) ""
    = .ok
      (.elem "p" [⟨"class", "block-indent"⟩]
        [.elem "span" [⟨"class", "line verse"⟩, ⟨"data-ref", r⟩]
          [.elem "b" [] [.text num], .text (goTrimRight (goTrimLeft t1))],
         .elem "br" [] [],
         .elem "span" [⟨"class", "line verse"⟩, ⟨"data-ref", r⟩]
          [.text (goTrimRight (goTrimLeft t2))]], r) := by
  have hm : matchVerseID ("v" ++ r ++ sfx) = some r := matchVerseID_valid r sfx hv
  have hrne : ¬ r = "" := isValidRef_ne_empty hv
  have h1l : wsOnly (goTrimLeft t1) = false := by rw [wsOnly_goTrimLeft]; exact h1
  have h2l : wsOnly (goTrimLeft t2) = false := by rw [wsOnly_goTrimLeft]; exact h2
  have hlen1 : 0 < (goTrimLeft t1).length :=
    length_pos_of_ne_empty (goTrimLeft_ne_empty h1)
  have h1le : ¬ goTrimLeft t1 = "" := goTrimLeft_ne_empty h1
  have h2le : ¬ goTrimLeft t2 = "" := goTrimLeft_ne_empty h2
  have h1r : ¬ goTrimRight (goTrimLeft t1) = "" := goTrimRight_ne_empty h1l
  have h2r : ¬ goTrimRight (goTrimLeft t2) = "" := goTrimRight_ne_empty h2l
  have f0 : ∀ c : String, hasClass [] c = false := fun _ => rfl
  have f1 : hasClass [⟨"class", "line"⟩] "line" = true := rfl
  have f2 : hasClass [⟨"class", "line"⟩] "begin-line-group" = false := rfl
  have f3 : hasClass [⟨"class", "line"⟩] "end-line-group" = false := rfl
  have f4 : hasClass [⟨"class", "line"⟩] "verse" = false := rfl
  have f5 : hasClass [⟨"class", "line"⟩] "verse-num" = false := rfl
  have f6 : hasClass [⟨"class", "block-indent"⟩] "verse-num" = false := rfl
  have f7 : cleanupAttrs "p" [⟨"class", "block-indent"⟩] = [⟨"class", "block-indent"⟩] := rfl
  have f8 : ∀ v : String, cleanupAttrs "b" [⟨"id", v⟩] = [] := fun _ => rfl
  have f9 : cleanupAttrs "span" [⟨"class", "line"⟩] = [⟨"class", "line"⟩] := rfl
  have f10 : cleanupAttrs "br" [] = [] := rfl
  have f11 : addClass [⟨"class", "line"⟩] "verse" = [⟨"class", "line verse"⟩] := rfl
  have f12 : ∀ v : String, setAttr [⟨"class", "line verse"⟩] "data-ref" v
      = [⟨"class", "line verse"⟩, ⟨"data-ref", v⟩] := fun _ => rfl
  simp only [processNodeF, procChildrenGo, cleanupNode, foldLineGroups, foldLGAux,
    closeSec, getVerseRef, getVerseRefAttrs, cleanVerseMarker, closeWrapperStep,
    createVerseWrapper, trimTextBoth, isCopyrightLink, isBeginLineGroup, isEndLineGroup,
    isStylizedLine, isBlockTag, nodeTag, nodeAttrs, nodeChildren, appendChild,
    trimTrailingWhitespace, trimTrailingWS, trimChildrenWS, trimChildrenWSF, tcwLeftGo, tcwRightGo, List.getLast?,
    f0, f1, f2, f3, f4, f5, f6, f7, f8, f9, f10, f11, f12, hm,
    h1l, h2l, hlen1, h1r, h2r, h1le, h2le, hrne]
  simp [processNodeF, procChildrenGo, cleanupNode, foldLineGroups, foldLGAux,
    closeSec, getVerseRef, getVerseRefAttrs, cleanVerseMarker, closeWrapperStep,
    createVerseWrapper, trimTextBoth, isCopyrightLink, isBeginLineGroup, isEndLineGroup,
    isStylizedLine, isBlockTag, nodeTag, nodeAttrs, nodeChildren, appendChild,
    trimTrailingWhitespace, trimTrailingWS, trimChildrenWS, trimChildrenWSF, tcwLeftGo, tcwRightGo, List.getLast?,
    f0, f1, f2, f3, f4, f5, f6, f7, f8, f9, f10, f11, f12, hm,
    h1l, h2l, hlen1, h1r, h2r, h1le, h2le, hrne]

/-- Witness for C4 at a concrete poetic pair of lines. -/
theorem claim_C4_poetic_line_tagging_witness :
    processNodeF 2
      (.elem "p" [⟨"class", "block-indent"⟩]
        [.elem "span" [⟨"class", "line"⟩]
          [.elem "b" [⟨"id", "v" ++ "19148007" ++ "-1"⟩] [.text "7"], .text " Praise"],
         .elem "br" [] [],
         .elem "span" [⟨"class", "line"⟩] [.text "you great"]]) ""
    = .ok
      (.elem "p" [⟨"class", "block-indent"⟩]
        [.elem "span" [⟨"class", "line verse"⟩, ⟨"data-ref", "19148007"⟩]
          [.elem "b" [] [.text "7"], .text (goTrimRight (goTrimLeft " Praise"))],
         .elem "br" [] [],
         .elem "span" [⟨"class", "line verse"⟩, ⟨"data-ref", "19148007"⟩]
          [.text (goTrimRight (goTrimLeft "you great"))]], "19148007") :=
  claim_C4_poetic_line_tagging 0 "19148007" "-1" "7" " Praise" "you great"
    (by decide) (by decide) (by decide)

/-- C5 (counterexample): a wrapper closed because the next child is a
block-level paragraph HAS its trailing whitespace trimmed: on this input the
output contains a verse span ending in the text `"hi"` and none ending in
`"hi "`, contradicting the claim that block-boundary closes skip the
trailing trim. -/
theorem claim_C5_counterexample :
    processPassage 5
      [.elem "p" [] [.elem "b" [⟨"id", "v01001001"⟩] [.text "1"], .text "hi ",
        .elem "p" [] [.text "x"]]]
    = .ok [.elem "p" []
        [createVerseWrapper "01001001" [.elem "b" [] [.text "1"], .text "hi"],
         .elem "p" [] [createVerseWrapper "01001001" [.text "x"]]]]
  ∧ listHasMatch (isVerseSpanWithLastText "hi ")
      [.elem "p" []
        [createVerseWrapper "01001001" [.elem "b" [] [.text "1"], .text "hi"],
         .elem "p" [] [createVerseWrapper "01001001" [.text "x"]]]] = false
  ∧ listHasMatch (isVerseSpanWithLastText "hi")
      [.elem "p" []
        [createVerseWrapper "01001001" [.elem "b" [] [.text "1"], .text "hi"],
         .elem "p" [] [createVerseWrapper "01001001" [.text "x"]]]] = true :=
  ⟨rfl, by decide, by decide⟩

set_option maxHeartbeats 4000000 in
/-- C5 (amended): `closeWrapper` always trims the wrapper's trailing
whitespace, whatever triggered the close: (i) a wrapper closed at a
block-level child boundary is trimmed, and (ii) a wrapper still open at the
end of the loop is trimmed even when the enclosing node is an inline `span`
(not block-level). -/
theorem claim_C5_amended_close_always_trims :
    (∀ (fuel : Nat) (r sfx t u : String), isValidRef r = true →
        wsOnly t = false → wsOnly u = false →
      processNodeF (fuel + 2)
        (.elem "p" [] [.elem "b" [⟨"id", "v" ++ r ++ sfx⟩] [.text "1"], .text t,
          .elem "p" [] [.text u]]) ""
      = .ok (.elem "p" []
          [createVerseWrapper r [.elem "b" [] [.text "1"], .text (goTrimRight (goTrimLeft t))],
           .elem "p" [] [createVerseWrapper r [.text (goTrimRight u)]]], r))
  ∧ (∀ (fuel : Nat) (r sfx t : String), isValidRef r = true → wsOnly t = false →
      processNodeF (fuel + 1)
        (.elem "span" [] [.elem "b" [⟨"id", "v" ++ r ++ sfx⟩] [.text "1"], .text t]) ""
      = .ok (.elem "span" []
          [createVerseWrapper r [.elem "b" [] [.text "1"], .text (goTrimRight (goTrimLeft t))]],
          r)) := by
  constructor
  · intro fuel r sfx t u hv ht hu
    have hm : matchVerseID ("v" ++ r ++ sfx) = some r := matchVerseID_valid r sfx hv
    have hrne : ¬ r = "" := isValidRef_ne_empty hv
    have h1l : wsOnly (goTrimLeft t) = false := by rw [wsOnly_goTrimLeft]; exact ht
    have hlen : 0 < (goTrimLeft t).length :=
      length_pos_of_ne_empty (goTrimLeft_ne_empty ht)
    have h1r : ¬ goTrimRight (goTrimLeft t) = "" := goTrimRight_ne_empty h1l
    have h2r : ¬ goTrimRight u = "" := goTrimRight_ne_empty hu
    simp only [processNodeF, procChildrenGo, cleanupAttrs, cleanupNode, foldLineGroups,
      foldLGAux, closeSec, getVerseRef, getVerseRefAttrs, hm, cleanVerseMarker, closeWrapperStep,
      createVerseWrapper, trimTextBoth, isCopyrightLink, isBeginLineGroup, isEndLineGroup,
      isStylizedLine, isBlockTag, hasClass, goFields, fieldsAux, nodeTag, nodeAttrs, nodeChildren,
      appendChild, trimTrailingWhitespace, trimTrailingWS, trimChildrenWS, trimChildrenWSF, tcwLeftGo, tcwRightGo,
      wsOnly, removeAttr, removeClass, getAttr, hasSection, subtreeHasSection, listHasSection,
      List.getLast?, h1l, hlen, h1r, h2r, hrne, hu]
    simp [processNodeF, procChildrenGo, cleanupAttrs, cleanupNode, foldLineGroups,
      foldLGAux, closeSec, getVerseRef, getVerseRefAttrs, hm, cleanVerseMarker, closeWrapperStep,
      createVerseWrapper, trimTextBoth, isCopyrightLink, isBeginLineGroup, isEndLineGroup,
      isStylizedLine, isBlockTag, hasClass, goFields, fieldsAux, nodeTag, nodeAttrs, nodeChildren,
      appendChild, trimTrailingWhitespace, trimTrailingWS, trimChildrenWS, trimChildrenWSF, tcwLeftGo, tcwRightGo,
      removeAttr, removeClass, getAttr, hasSection, subtreeHasSection, listHasSection,
      List.getLast?, h1l, hlen, h1r, h2r, hrne, hu]
  · intro fuel r sfx t hv ht
    have hm : matchVerseID ("v" ++ r ++ sfx) = some r := matchVerseID_valid r sfx hv
    have hrne : ¬ r = "" := isValidRef_ne_empty hv
    have h1l : wsOnly (goTrimLeft t) = false := by rw [wsOnly_goTrimLeft]; exact ht
    have hlen : 0 < (goTrimLeft t).length :=
      length_pos_of_ne_empty (goTrimLeft_ne_empty ht)
    have h1r : ¬ goTrimRight (goTrimLeft t) = "" := goTrimRight_ne_empty h1l
    simp only [processNodeF, procChildrenGo, cleanupAttrs, cleanupNode, foldLineGroups,
      foldLGAux, closeSec, getVerseRef, getVerseRefAttrs, hm, cleanVerseMarker, closeWrapperStep,
      createVerseWrapper, trimTextBoth, isCopyrightLink, isBeginLineGroup, isEndLineGroup,
      isStylizedLine, isBlockTag, hasClass, goFields, fieldsAux, nodeTag, nodeAttrs, nodeChildren,
      appendChild, trimTrailingWhitespace, trimTrailingWS, trimChildrenWS, trimChildrenWSF, tcwLeftGo, tcwRightGo,
      wsOnly, removeAttr, removeClass, getAttr, List.getLast?, h1l, hlen, h1r, hrne]
    simp [processNodeF, procChildrenGo, cleanupAttrs, cleanupNode, foldLineGroups,
      foldLGAux, closeSec, getVerseRef, getVerseRefAttrs, hm, cleanVerseMarker, closeWrapperStep,
      createVerseWrapper, trimTextBoth, isCopyrightLink, isBeginLineGroup, isEndLineGroup,
      isStylizedLine, isBlockTag, hasClass, goFields, fieldsAux, nodeTag, nodeAttrs, nodeChildren,
      appendChild, trimTrailingWhitespace, trimTrailingWS, trimChildrenWS, trimChildrenWSF, tcwLeftGo, tcwRightGo,
      removeAttr, removeClass, getAttr, List.getLast?, h1l, hlen, h1r, hrne]

/-- Witness for C5 (amended) at concrete inputs. -/
theorem claim_C5_amended_close_always_trims_witness :
    processNodeF 2
      (.elem "p" [] [.elem "b" [⟨"id", "v" ++ "01001001" ++ ""⟩] [.text "1"], .text "hi ",
        .elem "p" [] [.text "x "]]) ""
    = .ok (.elem "p" []
        [createVerseWrapper "01001001"
          [.elem "b" [] [.text "1"], .text (goTrimRight (goTrimLeft "hi "))],
         .elem "p" [] [createVerseWrapper "01001001" [.text (goTrimRight "x ")]]], "01001001")
  ∧ processNodeF 1
      (.elem "span" [] [.elem "b" [⟨"id", "v" ++ "01001001" ++ ""⟩] [.text "1"], .text "yo "]) ""
    = .ok (.elem "span" []
        [createVerseWrapper "01001001"
          [.elem "b" [] [.text "1"], .text (goTrimRight (goTrimLeft "yo "))]], "01001001") :=
  ⟨claim_C5_amended_close_always_trims.1 0 "01001001" "" "hi " "x "
      (by decide) (by decide) (by decide),
   claim_C5_amended_close_always_trims.2 0 "01001001" "" "yo " (by decide) (by decide)⟩

/-! ### C8: wrappers are never emitted empty -/

theorem listWrapOK_iff_forall :
    ∀ l : List Node, listWrapOK l = true ↔ ∀ x ∈ l, nodeWrapOK x = true := by
  intro l
  induction l with
  | nil => simp [listWrapOK]
  | cons n ns ih =>
    simp only [listWrapOK, Bool.and_eq_true, ih, List.mem_cons]
    constructor
    · rintro ⟨h1, h2⟩ x (rfl | hx)
      · exact h1
      · exact h2 x hx
    · intro h
      exact ⟨h n (Or.inl rfl), fun x hx => h x (Or.inr hx)⟩

theorem listNoWrapShape_iff_forall :
    ∀ l : List Node, listNoWrapShape l = true ↔ ∀ x ∈ l, nodeNoWrapShape x = true := by
  intro l
  induction l with
  | nil => simp [listNoWrapShape]
  | cons n ns ih =>
    simp only [listNoWrapShape, Bool.and_eq_true, ih, List.mem_cons]
    constructor
    · rintro ⟨h1, h2⟩ x (rfl | hx)
      · exact h1
      · exact h2 x hx
    · intro h
      exact ⟨h n (Or.inl rfl), fun x hx => h x (Or.inr hx)⟩

mutual
theorem nodeWrapOK_of_noShape : ∀ n : Node, nodeNoWrapShape n = true → nodeWrapOK n = true
  | .text _ => fun _ => rfl
  | .elem t a ch => by
    intro h
    simp only [nodeNoWrapShape, Bool.and_eq_true] at h
    simp only [nodeWrapOK, Bool.and_eq_true]
    exact ⟨by simp [h.1], listWrapOK_of_noShape ch h.2⟩
theorem listWrapOK_of_noShape : ∀ l : List Node, listNoWrapShape l = true → listWrapOK l = true
  | [] => fun _ => rfl
  | n :: ns => by
    intro h
    simp only [listNoWrapShape, Bool.and_eq_true] at h
    simp only [listWrapOK, Bool.and_eq_true]
    exact ⟨nodeWrapOK_of_noShape n h.1, listWrapOK_of_noShape ns h.2⟩
end

theorem mem_trimTrailingWS :
    ∀ (l : List Node) (x : Node), x ∈ trimTrailingWS l → x ∈ l ∨ ∃ d, x = .text d := by
  intro l
  induction l with
  | nil => intro x hx; simp [trimTrailingWS] at hx
  | cons n ns ih =>
    intro x hx
    cases ns with
    | nil =>
      cases n with
      | text d =>
        simp only [trimTrailingWS] at hx
        by_cases hd : (goTrimRight d == "") = true
        · rw [if_pos hd] at hx
          simp at hx
        · rw [if_neg hd] at hx
          simp only [List.mem_singleton] at hx
          exact Or.inr ⟨goTrimRight d, hx⟩
      | elem t a ch =>
        simp only [trimTrailingWS, List.mem_singleton] at hx
        exact Or.inl (by simp [hx])
    | cons m ms =>
      simp only [trimTrailingWS, List.mem_cons] at hx
      rcases hx with rfl | hx
      · exact Or.inl (by simp)
      · rcases ih x hx with hm | hd
        · exact Or.inl (by simp [hm])
        · exact Or.inr hd

theorem listWrapOK_trimTrailingWS {l : List Node} (h : listWrapOK l = true) :
    listWrapOK (trimTrailingWS l) = true := by
  rw [listWrapOK_iff_forall]
  intro x hx
  rcases mem_trimTrailingWS l x hx with hm | ⟨d, rfl⟩
  · exact (listWrapOK_iff_forall l).mp h x hm
  · rfl

theorem mem_tcwLeftGo (tcw : List Node → List Node)
    (htcw : ∀ (l : List Node) (x : Node), x ∈ tcw l → x ∈ l ∨ ∃ d, x = .text d) :
    ∀ (l : List Node) (x : Node), x ∈ tcwLeftGo tcw l → x ∈ l ∨ ∃ d, x = .text d := by
  intro l x hx
  cases l with
  | nil => exact Or.inl hx
  | cons n ns =>
    cases n with
    | text d =>
      simp only [tcwLeftGo] at hx
      by_cases hd : (goTrimLeft d == "") = true
      · rw [if_pos hd] at hx
        by_cases hns : ns.isEmpty = true
        · rw [if_pos hns] at hx
          exact Or.inl (List.mem_cons_of_mem _ hx)
        · rw [if_neg hns] at hx
          rcases htcw ns x hx with hm | hd2
          · exact Or.inl (List.mem_cons_of_mem _ hm)
          · exact Or.inr hd2
      · rw [if_neg hd] at hx
        rcases List.mem_cons.mp hx with rfl | hm
        · exact Or.inr ⟨goTrimLeft d, rfl⟩
        · exact Or.inl (List.mem_cons_of_mem _ hm)
    | elem t a ch => exact Or.inl hx

theorem mem_tcwRightGo (tcw : List Node → List Node)
    (htcw : ∀ (l : List Node) (x : Node), x ∈ tcw l → x ∈ l ∨ ∃ d, x = .text d) :
    ∀ (l : List Node) (x : Node), x ∈ tcwRightGo tcw l → x ∈ l ∨ ∃ d, x = .text d := by
  intro l x hx
  unfold tcwRightGo at hx
  rcases hlast : l.getLast? with _ | last
  · rw [hlast] at hx
    exact Or.inl hx
  · rw [hlast] at hx
    cases last with
    | text e =>
      by_cases he : (goTrimRight e == "") = true
      · simp only [he, if_true] at hx
        by_cases hdrop : l.dropLast.isEmpty = true
        · rw [if_pos hdrop] at hx
          rw [List.isEmpty_iff] at hdrop
          rw [hdrop] at hx
          simp at hx
        · rw [if_neg hdrop] at hx
          rcases htcw l.dropLast x hx with hm | hd2
          · exact Or.inl (List.Sublist.mem hm (List.dropLast_sublist l))
          · exact Or.inr hd2
      · have he2 : (goTrimRight e == "") = false := by simpa using he
        simp only [he2, Bool.false_eq_true, if_false] at hx
        rcases List.mem_append.mp hx with hm | hm
        · exact Or.inl (List.Sublist.mem hm (List.dropLast_sublist l))
        · simp only [List.mem_singleton] at hm
          exact Or.inr ⟨goTrimRight e, hm⟩
    | elem t2 a2 ch2 => exact Or.inl hx

theorem mem_trimChildrenWSF :
    ∀ (fuel : Nat) (l : List Node) (x : Node),
      x ∈ trimChildrenWSF fuel l → x ∈ l ∨ ∃ d, x = .text d := by
  intro fuel
  induction fuel with
  | zero => intro l x hx; exact Or.inl hx
  | succ fuel ih =>
    intro l x hx
    simp only [trimChildrenWSF] at hx
    rcases mem_tcwRightGo _ ih _ x hx with hm | hd
    · rcases mem_tcwLeftGo _ ih l x hm with hm2 | hd2
      · exact Or.inl hm2
      · exact Or.inr hd2
    · exact Or.inr hd

theorem listWrapOK_trimChildrenWS {l : List Node} (h : listWrapOK l = true) :
    listWrapOK (trimChildrenWS l) = true := by
  rw [listWrapOK_iff_forall]
  intro x hx
  rcases mem_trimChildrenWSF (l.length + 1) l x hx with hm | ⟨d, rfl⟩
  · exact (listWrapOK_iff_forall l).mp h x hm
  · rfl

theorem shape_requires_span {t : String} {a : List Attr} (ht : (t == "span") = false) :
    isWrapperShape t a = false := by
  simp [isWrapperShape, ht]

theorem hasClass_removeAttr_id :
    ∀ (attrs : List Attr) (c : String), hasClass (removeAttr attrs "id") c = hasClass attrs c := by
  intro attrs c
  induction attrs with
  | nil => rfl
  | cons a rest ih =>
    by_cases hk : (a.key == "id") = true
    · have hkc : (a.key == "class") = false := by
        have hke : a.key = "id" := beq_iff_eq.mp hk
        rw [hke]
        rfl
      simp [removeAttr, hk, hasClass, hkc]
    · have hk2 : (a.key == "id") = false := by simpa using hk
      simp only [removeAttr, hk2, Bool.false_eq_true, if_false]
      simp only [hasClass, List.any_cons]
      rw [show (removeAttr rest "id").any
            (fun a => a.key == "class" && (goFields a.val).contains c)
          = hasClass (removeAttr rest "id") c from rfl,
        show rest.any (fun a => a.key == "class" && (goFields a.val).contains c)
          = hasClass rest c from rfl, ih]

theorem shape_no_line {a : List Attr} (h : isWrapperShape "span" a = true) :
    hasClass a "line" = false := by
  match a with
  | [⟨k1, v1⟩, ⟨k2, v2⟩] =>
    simp only [isWrapperShape, Bool.and_eq_true, beq_iff_eq] at h
    obtain ⟨-, ⟨h1, h2⟩, h3⟩ := h
    rw [h1, h2, h3]
    rfl
  | [] => simp [isWrapperShape] at h
  | [a1] => simp [isWrapperShape] at h
  | a1 :: a2 :: a3 :: rest => simp [isWrapperShape] at h

theorem noShape_cleanupAttrs {t : String} {a : List Attr} (h : isWrapperShape t a = false) :
    isWrapperShape t (cleanupAttrs t a) = false := by
  by_cases ht : (t == "span") = true
  · have hte : t = "span" := beq_iff_eq.mp ht
    subst hte
    simp only [cleanupAttrs]
    norm_num
    by_cases hl : hasClass a "line" = true
    · rw [if_pos hl]
      by_cases hs : isWrapperShape "span" (removeAttr a "id") = true
      · exfalso
        have h1 : hasClass (removeAttr a "id") "line" = false := shape_no_line hs
        rw [hasClass_removeAttr_id] at h1
        rw [hl] at h1
        exact Bool.noConfusion h1
      · simpa using hs
    · have hl2 : hasClass a "line" = false := by simpa using hl
      rw [hl2]
      simpa using h
  · have ht2 : (t == "span") = false := by simpa using ht
    exact shape_requires_span ht2

theorem noShape_cleanupNode {n : Node} (h : nodeNoWrapShape n = true) :
    nodeNoWrapShape (cleanupNode n) = true := by
  cases n with
  | text d => rfl
  | elem t a ch =>
    simp only [nodeNoWrapShape, Bool.and_eq_true, Bool.not_eq_true'] at h
    simp only [cleanupNode, nodeNoWrapShape, Bool.and_eq_true, Bool.not_eq_true']
    exact ⟨noShape_cleanupAttrs h.1, h.2⟩

theorem listNoWrapShape_trimChildrenWS {l : List Node} (h : listNoWrapShape l = true) :
    listNoWrapShape (trimChildrenWS l) = true := by
  rw [listNoWrapShape_iff_forall]
  intro x hx
  rcases mem_trimChildrenWSF (l.length + 1) l x hx with hm | ⟨d, rfl⟩
  · exact (listNoWrapShape_iff_forall l).mp h x hm
  · rfl

theorem noShape_cleanVerseMarker {n : Node} (h : nodeNoWrapShape n = true) :
    nodeNoWrapShape (cleanVerseMarker n) = true := by
  cases n with
  | text d => exact h
  | elem t a ch =>
    simp only [cleanVerseMarker]
    by_cases hb : (t == "b" && hasClass a "verse-num") = true
    · rw [if_pos hb]
      simp only [nodeNoWrapShape, Bool.and_eq_true] at h ⊢
      exact ⟨h.1, listNoWrapShape_trimChildrenWS h.2⟩
    · rw [if_neg hb]
      exact h

theorem noShape_trimTextBoth {n : Node} (h : nodeNoWrapShape n = true) :
    nodeNoWrapShape (trimTextBoth n) = true := by
  cases n with
  | text d => rfl
  | elem t a ch => exact h

theorem noShape_mkSection {xs : List Node} (h : listNoWrapShape xs = true) :
    nodeNoWrapShape (mkSection xs) = true := by
  simp only [mkSection, nodeNoWrapShape, Bool.and_eq_true]
  exact ⟨rfl, h⟩

theorem listNoWrapShape_append {l1 l2 : List Node}
    (h1 : listNoWrapShape l1 = true) (h2 : listNoWrapShape l2 = true) :
    listNoWrapShape (l1 ++ l2) = true := by
  rw [listNoWrapShape_iff_forall]
  intro x hx
  rcases List.mem_append.mp hx with hm | hm
  · exact (listNoWrapShape_iff_forall l1).mp h1 x hm
  · exact (listNoWrapShape_iff_forall l2).mp h2 x hm

theorem foldLGAux_noShape :
    ∀ (cs done : List Node) (cur : Option (List Node)),
      listNoWrapShape cs = true → listNoWrapShape done = true →
      (∀ xs, cur = some xs → listNoWrapShape xs = true) →
      listNoWrapShape (foldLGAux closeSec cs done cur) = true := by
  intro cs
  induction cs with
  | nil =>
    intro done cur _ hdone hcur
    simp only [foldLGAux]
    cases cur with
    | none => simpa [closeSec] using hdone
    | some xs =>
      exact listNoWrapShape_append hdone
        (by simpa [closeSec, listNoWrapShape] using noShape_mkSection (hcur xs rfl))
  | cons c rest ih =>
    intro done cur hcs hdone hcur
    simp only [listNoWrapShape, Bool.and_eq_true] at hcs
    have hclose : listNoWrapShape (done ++ closeSec cur) = true := by
      cases cur with
      | none => simpa [closeSec] using hdone
      | some xs =>
        exact listNoWrapShape_append hdone
          (by simpa [closeSec, listNoWrapShape] using noShape_mkSection (hcur xs rfl))
    simp only [foldLGAux]
    by_cases hb : isBeginLineGroup c = true
    · rw [if_pos hb]
      exact ih _ _ hcs.2 hclose (fun xs hxs => by cases hxs; rfl)
    · rw [if_neg hb]
      by_cases he : isEndLineGroup c = true
      · rw [if_pos he]
        exact ih _ _ hcs.2 hclose (fun xs hxs => by cases hxs)
      · rw [if_neg he]
        cases cur with
        | some xs =>
          refine ih _ _ hcs.2 hdone ?_
          intro ys hys
          cases hys
          exact listNoWrapShape_append (hcur xs rfl)
            (by simpa [listNoWrapShape] using hcs.1)
        | none =>
          refine ih _ _ hcs.2 ?_ (fun xs hxs => by cases hxs)
          exact listNoWrapShape_append hdone (by simpa [listNoWrapShape] using hcs.1)

theorem foldLineGroups_noShape {l : List Node} (h : listNoWrapShape l = true) :
    listNoWrapShape (foldLineGroups l) = true :=
  foldLGAux_noShape l [] none h rfl (fun xs hxs => by cases hxs)

theorem hasClass_addClassAux_mono {c c2 : String} :
    ∀ {attrs : List Attr}, hasClass attrs c = true →
      hasClass (addClassAux false c2 attrs) c = true := by
  intro attrs
  induction attrs with
  | nil => intro h; exact Bool.noConfusion h
  | cons a rest ih =>
    intro h
    simp only [hasClass, List.any_cons, Bool.or_eq_true, Bool.and_eq_true] at h
    by_cases hk : (a.key == "class") = true
    · simp only [addClassAux, hk, if_true, Bool.false_eq_true, if_false]
      simp only [hasClass, List.any_cons, Bool.or_eq_true, Bool.and_eq_true]
      rcases h with ⟨-, hcont⟩ | hrest
      · refine Or.inl ⟨hk, ?_⟩
        rw [goFields_append_space]
        rw [List.contains_eq_any_beq] at hcont ⊢
        simp only [List.any_append, Bool.or_eq_true]
        exact Or.inl hcont
      · exact Or.inr hrest
    · have hk2 : (a.key == "class") = false := by simpa using hk
      simp only [addClassAux, hk2, Bool.false_eq_true, if_false]
      simp only [hasClass, List.any_cons, Bool.or_eq_true, Bool.and_eq_true]
      rcases h with ⟨hke, -⟩ | hrest
      · exact absurd hke (by simp [hk2])
      · exact Or.inr (by simpa [hasClass] using ih (by simpa [hasClass] using hrest))

theorem hasClass_addClass_mono {attrs : List Attr} {c c2 : String}
    (h : hasClass attrs c = true) : hasClass (addClass attrs c2) c = true := by
  unfold addClass
  by_cases hp : hasClass attrs c2 = true
  · rw [hp, addClassAux_present (hasClass_implies_anyClass hp)]
    exact h
  · have hp2 : hasClass attrs c2 = false := by simpa using hp
    rw [hp2]
    exact hasClass_addClassAux_mono h

theorem hasClass_setAttr_nonclass {k r c : String} (hk : (k == "class") = false) :
    ∀ attrs : List Attr, hasClass (setAttr attrs k r) c = hasClass attrs c := by
  intro attrs
  induction attrs with
  | nil => simp [setAttr, hasClass, hk]
  | cons a rest ih =>
    by_cases hak : (a.key == k) = true
    · have hac : (a.key == "class") = false := by
        have hae : a.key = k := beq_iff_eq.mp hak
        rw [hae]
        exact hk
      simp [setAttr, hak, hasClass, hac]
    · have hak2 : (a.key == k) = false := by simpa using hak
      simp only [setAttr, hak2, Bool.false_eq_true, if_false]
      simp only [hasClass, List.any_cons]
      rw [show (setAttr rest k r).any (fun a => a.key == "class" && (goFields a.val).contains c)
          = hasClass (setAttr rest k r) c from rfl,
        show rest.any (fun a => a.key == "class" && (goFields a.val).contains c)
          = hasClass rest c from rfl, ih]

theorem tagged_noShape {a : List Attr} (r : String) (h : hasClass a "line" = true) :
    isWrapperShape "span" (setAttr (addClass a "verse") "data-ref" r) = false := by
  by_cases hs : isWrapperShape "span" (setAttr (addClass a "verse") "data-ref" r) = true
  · exfalso
    have h1 : hasClass (setAttr (addClass a "verse") "data-ref" r) "line" = false :=
      shape_no_line hs
    rw [hasClass_setAttr_nonclass (by rfl)] at h1
    rw [hasClass_addClass_mono h] at h1
    exact Bool.noConfusion h1
  · simpa using hs

theorem listWrapOK_append {l1 l2 : List Node}
    (h1 : listWrapOK l1 = true) (h2 : listWrapOK l2 = true) :
    listWrapOK (l1 ++ l2) = true := by
  rw [listWrapOK_iff_forall]
  intro x hx
  rcases List.mem_append.mp hx with hm | hm
  · exact (listWrapOK_iff_forall l1).mp h1 x hm
  · exact (listWrapOK_iff_forall l2).mp h2 x hm

theorem closeWrapperStep_out {s : LoopState} (hout : listWrapOK s.out = true)
    (hw : ∀ w, s.wrapper = some w → listWrapOK (nodeChildren w) = true) :
    listWrapOK (closeWrapperStep s).out = true ∧ (closeWrapperStep s).wrapper = none := by
  cases hwr : s.wrapper with
  | none => simp [closeWrapperStep, hwr, hout]
  | some w =>
    have hch : listWrapOK (nodeChildren w) = true := hw w hwr
    cases w with
    | text d => simp [closeWrapperStep, hwr, trimTrailingWhitespace, nodeChildren, hout]
    | elem t a ch =>
      simp only [closeWrapperStep, hwr, trimTrailingWhitespace]
      by_cases hemp : (nodeChildren (Node.elem t a (trimTrailingWS ch))).isEmpty = true
      · simp [hemp, hout]
      · have hemp2 : (nodeChildren (Node.elem t a (trimTrailingWS ch))).isEmpty = false := by
          simpa using hemp
        simp only [hemp2, Bool.false_eq_true, if_false]
        refine ⟨?_, trivial⟩
        refine listWrapOK_append hout ?_
        simp only [listWrapOK, Bool.and_eq_true]
        refine ⟨?_, trivial⟩
        simp only [nodeWrapOK, Bool.and_eq_true]
        constructor
        · simp only [nodeChildren] at hemp2
          simp [hemp2]
        · exact listWrapOK_trimTrailingWS (by simpa [nodeChildren] using hch)

theorem processNodeF_ok_shape :
    ∀ (fuel : Nat) (t : String) (a : List Attr) (ch : List Node) (ref : String)
      (res : Node × String), processNodeF fuel (.elem t a ch) ref = .ok res →
      ∃ ch2, res.1 = .elem t (cleanupAttrs t a) ch2 := by
  intro fuel t a ch ref res h
  cases fuel with
  | zero => exact Except.noConfusion h
  | succ fuel =>
    simp only [processNodeF] at h
    cases hp : procChildrenGo (processNodeF fuel) t (cleanupAttrs t a)
        (foldLineGroups (if (t == "b" && hasClass (cleanupAttrs t a) "verse-num") = true
          then ch.map trimTextBoth else ch))
        ⟨[], none, false, if (if (t == "b" && hasClass (cleanupAttrs t a) "verse-num") = true
          then ch.map trimTextBoth else ch).any isCopyrightLink then "" else ref⟩ with
    | error e =>
      rw [hp] at h
      exact Except.noConfusion h
    | ok s =>
      rw [hp] at h
      refine ⟨(if (t == "p" || t == "span") = true
          then trimChildrenWS (closeWrapperStep s).out else (closeWrapperStep s).out), ?_⟩
      have h2 := Option.some_inj.mp (congrArg Except.toOption h)
      rw [← h2]

theorem hasClass_cleanupAttrs_span_line {a : List Attr} (h : hasClass a "line" = true) :
    hasClass (cleanupAttrs "span" a) "line" = true := by
  show hasClass (if hasClass a "line" = true then removeAttr a "id" else a) "line" = true
  rw [if_pos h, hasClass_removeAttr_id]
  exact h

theorem nodeWrapOK_children {t : String} {a : List Attr} {ch : List Node}
    (h : nodeWrapOK (.elem t a ch) = true) : listWrapOK ch = true := by
  simp only [nodeWrapOK, Bool.and_eq_true] at h
  exact h.2


theorem nodeWrapOK_text (d : String) : nodeWrapOK (.text d) = true := rfl

theorem wrapper_inv_append {w c : Node}
    (hw : listWrapOK (nodeChildren w) = true) (hc : nodeWrapOK c = true) :
    listWrapOK (nodeChildren (appendChild w c)) = true := by
  cases w with
  | text d => exact hw
  | elem t a ch =>
    simp only [appendChild, nodeChildren] at hw ⊢
    exact listWrapOK_append hw (by simp [listWrapOK, hc])

theorem listWrapOK_snoc {l : List Node} {c : Node}
    (hl : listWrapOK l = true) (hc : nodeWrapOK c = true) :
    listWrapOK (l ++ [c]) = true :=
  listWrapOK_append hl (by simp [listWrapOK, hc])

theorem procChildrenGo_wrapOK
    (pn : Node → String → Except GoErr (Node × String))
    (hpn : ∀ (c : Node) (r : String) (res : Node × String), nodeNoWrapShape c = true →
      pn c r = .ok res → nodeWrapOK res.1 = true)
    (hpnsh : ∀ (t : String) (a : List Attr) (ch : List Node) (r : String) (res : Node × String),
      pn (.elem t a ch) r = .ok res → ∃ ch2, res.1 = .elem t (cleanupAttrs t a) ch2) :
    ∀ (cs : List Node) (ptag : String) (pattrs : List Attr) (s s' : LoopState),
      listNoWrapShape cs = true → listWrapOK s.out = true →
      (∀ w, s.wrapper = some w → listWrapOK (nodeChildren w) = true) →
      procChildrenGo pn ptag pattrs cs s = .ok s' →
      listWrapOK s'.out = true ∧
        ∀ w, s'.wrapper = some w → listWrapOK (nodeChildren w) = true := by
  intro cs
  induction cs with
  | nil =>
    intro ptag pattrs s s' _ hout hw h
    simp only [procChildrenGo] at h
    cases h
    exact ⟨hout, hw⟩
  | cons c rest ih =>
    intro ptag pattrs s s' hclean hout hw h
    have hcc : nodeNoWrapShape c = true ∧ listNoWrapShape rest = true := by
      simpa [listNoWrapShape, Bool.and_eq_true] using hclean
    obtain ⟨hcw1, hcw2⟩ := closeWrapperStep_out hout hw
    have hwnone : ∀ w : Node, (closeWrapperStep s).wrapper = some w →
        listWrapOK (nodeChildren w) = true := by
      intro w hww
      rw [hcw2] at hww
      exact Option.noConfusion hww
    cases c with
    | text d =>
      simp only [procChildrenGo, getVerseRef, isCopyrightLink, nodeTag, nodeAttrs] at h
      rw [if_neg (by simp)] at h
      rw [if_neg (by simp [hasClass])] at h
      cases hws : s.wrapper with
      | some w0 =>
        simp only [hws] at h
        have hstep : ∀ (d2 : String) (tl2 : Bool) (st' : LoopState),
            procChildrenGo pn ptag pattrs rest ⟨s.out ++ [.text d2], some w0, tl2, s.ref⟩
              = .ok st' →
            listWrapOK st'.out = true ∧
              ∀ w, st'.wrapper = some w → listWrapOK (nodeChildren w) = true := by
          intro d2 tl2 st' hh
          refine ih ptag pattrs ⟨s.out ++ [.text d2], some w0, tl2, s.ref⟩ st' hcc.2
            (listWrapOK_snoc hout (nodeWrapOK_text d2)) ?_ hh
          intro w1 hww
          simp only [Option.some_inj] at hww
          subst hww
          exact hw w0 hws
        have hstepw : ∀ (d2 : String) (tl2 : Bool) (st' : LoopState),
            procChildrenGo pn ptag pattrs rest
              ⟨s.out, some (appendChild w0 (.text d2)), tl2, s.ref⟩ = .ok st' →
            listWrapOK st'.out = true ∧
              ∀ w, st'.wrapper = some w → listWrapOK (nodeChildren w) = true := by
          intro d2 tl2 st' hh
          refine ih ptag pattrs
            ⟨s.out, some (appendChild w0 (.text d2)), tl2, s.ref⟩ st' hcc.2 hout ?_ hh
          intro w1 hww
          simp only [Option.some_inj] at hww
          subst hww
          exact wrapper_inv_append (hw w0 hws) (nodeWrapOK_text d2)
        repeat' split at h
        all_goals first
          | exact hstep _ _ _ h
          | exact hstepw _ _ _ h
      | none =>
        simp only [hws] at h
        have hstep : ∀ (d2 : String) (tl2 : Bool) (st' : LoopState),
            procChildrenGo pn ptag pattrs rest ⟨s.out ++ [.text d2], none, tl2, s.ref⟩
              = .ok st' →
            listWrapOK st'.out = true ∧
              ∀ w, st'.wrapper = some w → listWrapOK (nodeChildren w) = true := by
          intro d2 tl2 st' hh
          refine ih ptag pattrs ⟨s.out ++ [.text d2], none, tl2, s.ref⟩ st' hcc.2
            (listWrapOK_snoc hout (nodeWrapOK_text d2)) ?_ hh
          intro w1 hww
          exact Option.noConfusion hww
        have hstepw : ∀ (d2 : String) (tl2 : Bool) (st' : LoopState),
            procChildrenGo pn ptag pattrs rest
              ⟨s.out, some (appendChild (createVerseWrapper s.ref []) (.text d2)), tl2, s.ref⟩
              = .ok st' →
            listWrapOK st'.out = true ∧
              ∀ w, st'.wrapper = some w → listWrapOK (nodeChildren w) = true := by
          intro d2 tl2 st' hh
          refine ih ptag pattrs
            ⟨s.out, some (appendChild (createVerseWrapper s.ref []) (.text d2)), tl2, s.ref⟩
            st' hcc.2 hout ?_ hh
          intro w1 hww
          simp only [Option.some_inj] at hww
          subst hww
          exact wrapper_inv_append rfl (nodeWrapOK_text d2)
        repeat' split at h
        all_goals first
          | exact hstep _ _ _ h
          | exact hstepw _ _ _ h
    | elem ctag cattrs cch =>
      simp only [procChildrenGo, cleanupNode] at h
      have hc1 : nodeNoWrapShape (Node.elem ctag (cleanupAttrs ctag cattrs) cch) = true := by
        simpa [cleanupNode] using noShape_cleanupNode hcc.1
      have hc1ok : nodeWrapOK (Node.elem ctag (cleanupAttrs ctag cattrs) cch) = true :=
        nodeWrapOK_of_noShape _ hc1
      have hc2m : nodeWrapOK (cleanVerseMarker (Node.elem ctag (cleanupAttrs ctag cattrs) cch))
          = true :=
        nodeWrapOK_of_noShape _ (noShape_cleanVerseMarker hc1)
      by_cases hmk : getVerseRef (Node.elem ctag cattrs cch) = ""
      case neg =>
        -- verse marker
        rw [if_pos hmk] at h
        by_cases hsp : (ptag == "span" && hasClass pattrs "line") = true
        · rw [if_pos hsp] at h
          refine ih ptag pattrs _ s' hcc.2 ?_ ?_ h
          · exact listWrapOK_snoc hcw1 hc2m
          · exact hwnone
        · rw [if_neg hsp] at h
          refine ih ptag pattrs _ s' hcc.2 ?_ ?_ h
          · exact hcw1
          · intro w1 hww
            simp only [Option.some_inj] at hww
            subst hww
            simpa [createVerseWrapper, nodeChildren, listWrapOK] using hc2m
      case pos =>
        rw [if_neg (not_not_intro hmk)] at h
        by_cases hcp : isCopyrightLink (Node.elem ctag (cleanupAttrs ctag cattrs) cch) = true
        · rw [if_pos hcp] at h
          refine ih ptag pattrs _ s' hcc.2 ?_ ?_ h
          · exact listWrapOK_snoc hcw1 hc1ok
          · exact hwnone
        · rw [if_neg hcp] at h
          by_cases hblk : isBlockTag ctag = true
          · rw [if_pos hblk] at h
            cases hpn1 : pn (Node.elem ctag (cleanupAttrs ctag cattrs) cch)
                (closeWrapperStep s).ref with
            | error e =>
              simp only [hpn1] at h
              exact Except.noConfusion h
            | ok res =>
              obtain ⟨c2, ref1⟩ := res
              simp only [hpn1] at h
              have hc2ok : nodeWrapOK c2 = true := hpn _ _ (c2, ref1) hc1 hpn1
              by_cases hsec : (ctag == "p" && hasSection c2) = true
              · rw [if_pos hsec] at h
                exact Except.noConfusion h
              · rw [if_neg hsec] at h
                by_cases hemc : (ctag == "p" && (nodeChildren c2).isEmpty) = true
                · rw [if_pos hemc] at h
                  refine ih ptag pattrs _ s' hcc.2 ?_ ?_ h
                  · exact hcw1
                  · exact hwnone
                · rw [if_neg hemc] at h
                  refine ih ptag pattrs _ s' hcc.2 ?_ ?_ h
                  · exact listWrapOK_snoc hcw1 hc2ok
                  · exact hwnone
          · rw [if_neg hblk] at h
            by_cases hbr : (ctag == "br") = true
            · rw [if_pos hbr] at h
              refine ih ptag pattrs _ s' hcc.2 ?_ ?_ h
              · exact listWrapOK_snoc hcw1 hc1ok
              · exact hwnone
            · rw [if_neg hbr] at h
              by_cases hsty : isStylizedLine (Node.elem ctag (cleanupAttrs ctag cattrs) cch)
                  = true
              · rw [if_pos hsty] at h
                cases hpn1 : pn (Node.elem ctag (cleanupAttrs ctag cattrs) cch)
                    (closeWrapperStep s).ref with
                | error e =>
                  simp only [hpn1] at h
                  exact Except.noConfusion h
                | ok res =>
                  obtain ⟨c2, ref1⟩ := res
                  simp only [hpn1] at h
                  have hc2ok : nodeWrapOK c2 = true := hpn _ _ (c2, ref1) hc1 hpn1
                  obtain ⟨ch2, hshape⟩ :=
                    hpnsh ctag (cleanupAttrs ctag cattrs) cch _ (c2, ref1) hpn1
                  simp only at hshape
                  subst hshape
                  have hsty2 : (ctag == "span") = true ∧
                      hasClass (cleanupAttrs ctag cattrs) "line" = true := by
                    simpa [isStylizedLine, nodeTag, nodeAttrs, Bool.and_eq_true] using hsty
                  have hc3ok : nodeWrapOK (if ref1 ≠ "" then
                      Node.elem ctag
                        (setAttr (addClass (cleanupAttrs ctag (cleanupAttrs ctag cattrs))
                          "verse") "data-ref" ref1) ch2
                      else Node.elem ctag (cleanupAttrs ctag (cleanupAttrs ctag cattrs)) ch2)
                      = true := by
                    by_cases hr1 : ref1 = ""
                    · rw [if_neg (not_not_intro hr1)]
                      exact hc2ok
                    · rw [if_pos hr1]
                      simp only [nodeWrapOK, Bool.and_eq_true]
                      refine ⟨?_, nodeWrapOK_children hc2ok⟩
                      have hcse : ctag = "span" := beq_iff_eq.mp hsty2.1
                      subst hcse
                      have hlin2 : hasClass (cleanupAttrs "span" (cleanupAttrs "span" cattrs))
                          "line" = true :=
                        hasClass_cleanupAttrs_span_line hsty2.2
                      have hns := tagged_noShape ref1 hlin2
                      simp [hns]
                  refine ih ptag pattrs _ s' hcc.2 ?_ ?_ h
                  · exact listWrapOK_snoc hcw1 hc3ok
                  · exact hwnone
              · rw [if_neg hsty] at h
                by_cases hinl : (decide ¬s.ref = "" && !(ptag == "span" && hasClass pattrs "line"))
                    = true
                · rw [if_pos hinl] at h
                  cases hws : s.wrapper with
                  | some w0 =>
                    simp only [hws] at h
                    cases hpn1 : pn (Node.elem ctag (cleanupAttrs ctag cattrs) cch) s.ref with
                    | error e =>
                      simp only [hpn1] at h
                      exact Except.noConfusion h
                    | ok res =>
                      obtain ⟨c2, ref1⟩ := res
                      simp only [hpn1] at h
                      have hc2ok : nodeWrapOK c2 = true := hpn _ _ (c2, ref1) hc1 hpn1
                      by_cases hemc : (ctag == "p" && (nodeChildren c2).isEmpty) = true
                      · rw [if_pos hemc] at h
                        refine ih ptag pattrs _ s' hcc.2 ?_ ?_ h
                        · exact hout
                        · intro w1 hww
                          simp only [Option.some_inj] at hww
                          subst hww
                          exact hw w0 hws
                      · rw [if_neg hemc] at h
                        refine ih ptag pattrs _ s' hcc.2 ?_ ?_ h
                        · exact hout
                        · intro w1 hww
                          simp only [Option.some_inj] at hww
                          subst hww
                          exact wrapper_inv_append (hw w0 hws) hc2ok
                  | none =>
                    simp only [hws] at h
                    cases hpn1 : pn (Node.elem ctag (cleanupAttrs ctag cattrs) cch) s.ref with
                    | error e =>
                      simp only [hpn1] at h
                      exact Except.noConfusion h
                    | ok res =>
                      obtain ⟨c2, ref1⟩ := res
                      simp only [hpn1] at h
                      have hc2ok : nodeWrapOK c2 = true := hpn _ _ (c2, ref1) hc1 hpn1
                      by_cases hemc : (ctag == "p" && (nodeChildren c2).isEmpty) = true
                      · rw [if_pos hemc] at h
                        refine ih ptag pattrs _ s' hcc.2 ?_ ?_ h
                        · exact hout
                        · intro w1 hww
                          simp only [Option.some_inj] at hww
                          subst hww
                          rfl
                      · rw [if_neg hemc] at h
                        refine ih ptag pattrs _ s' hcc.2 ?_ ?_ h
                        · exact hout
                        · intro w1 hww
                          simp only [Option.some_inj] at hww
                          subst hww
                          exact wrapper_inv_append rfl hc2ok
                · rw [if_neg hinl] at h
                  cases hpn1 : pn (Node.elem ctag (cleanupAttrs ctag cattrs) cch) s.ref with
                  | error e =>
                    simp only [hpn1] at h
                    exact Except.noConfusion h
                  | ok res =>
                    obtain ⟨c2, ref1⟩ := res
                    simp only [hpn1] at h
                    have hc2ok : nodeWrapOK c2 = true := hpn _ _ (c2, ref1) hc1 hpn1
                    by_cases hemc : (ctag == "p" && (nodeChildren c2).isEmpty) = true
                    · rw [if_pos hemc] at h
                      refine ih ptag pattrs _ s' hcc.2 ?_ ?_ h
                      · exact hout
                      · exact hw
                    · rw [if_neg hemc] at h
                      refine ih ptag pattrs _ s' hcc.2 ?_ ?_ h
                      · exact listWrapOK_snoc hout hc2ok
                      · exact hw

theorem nodeWrapOK_anyChildren {n : Node} (h : nodeWrapOK n = true) :
    listWrapOK (nodeChildren n) = true := by
  cases n with
  | text d => rfl
  | elem t a ch => exact nodeWrapOK_children h

theorem processNodeF_wrapOK :
    ∀ (fuel : Nat) (n : Node) (ref : String) (res : Node × String),
      nodeNoWrapShape n = true → processNodeF fuel n ref = .ok res →
      nodeWrapOK res.1 = true := by
  intro fuel
  induction fuel with
  | zero =>
    intro n ref res hclean h
    cases n with
    | text d =>
      cases h
      rfl
    | elem t a ch => exact Except.noConfusion h
  | succ fuel ih =>
    intro n ref res hclean h
    cases n with
    | text d =>
      cases h
      rfl
    | elem tag attrs ch =>
      simp only [processNodeF] at h
      cases hp : procChildrenGo (processNodeF fuel) tag (cleanupAttrs tag attrs)
          (foldLineGroups (if (tag == "b" && hasClass (cleanupAttrs tag attrs) "verse-num") = true
            then ch.map trimTextBoth else ch))
          ⟨[], none, false,
            if (if (tag == "b" && hasClass (cleanupAttrs tag attrs) "verse-num") = true
              then ch.map trimTextBoth else ch).any isCopyrightLink then "" else ref⟩ with
      | error e =>
        rw [hp] at h
        exact Except.noConfusion h
      | ok s =>
        rw [hp] at h
        have hpair : nodeNoWrapShape (Node.elem tag attrs ch) = true := hclean
        simp only [nodeNoWrapShape, Bool.and_eq_true, Bool.not_eq_true'] at hpair
        have hchlist : listNoWrapShape ch = true := hpair.2
        have hch1 : listNoWrapShape
            (if (tag == "b" && hasClass (cleanupAttrs tag attrs) "verse-num") = true
              then ch.map trimTextBoth else ch) = true := by
          split
          · rw [listNoWrapShape_iff_forall]
            intro x hx
            obtain ⟨y, hy, rfl⟩ := List.mem_map.mp hx
            exact noShape_trimTextBoth ((listNoWrapShape_iff_forall ch).mp hchlist y hy)
          · exact hchlist
        have hch2 : listNoWrapShape (foldLineGroups
            (if (tag == "b" && hasClass (cleanupAttrs tag attrs) "verse-num") = true
              then ch.map trimTextBoth else ch)) = true := foldLineGroups_noShape hch1
        obtain ⟨hs1, hs2⟩ := procChildrenGo_wrapOK (processNodeF fuel)
          (fun c r res2 hc hh => ih c r res2 hc hh) (processNodeF_ok_shape fuel) _
          tag (cleanupAttrs tag attrs) ⟨[], none, false, _⟩ s hch2 rfl
          (fun w hww => Option.noConfusion hww) hp
        obtain ⟨hcw1, hcw2⟩ := closeWrapperStep_out hs1 hs2
        cases h
        simp only [nodeWrapOK, Bool.and_eq_true]
        constructor
        · have hsh : isWrapperShape tag (cleanupAttrs tag attrs) = false :=
            noShape_cleanupAttrs hpair.1
          simp [hsh]
        · split
          · exact listWrapOK_trimChildrenWS hcw1
          · exact hcw1

theorem processPassageAux_wrapOK :
    ∀ (fuel : Nat) (nodes : List Node) (ref : String) (out : List Node),
      listNoWrapShape nodes = true → processPassageAux fuel nodes ref = .ok out →
      listWrapOK out = true := by
  intro fuel nodes
  induction nodes with
  | nil =>
    intro ref out _ h
    cases h
    rfl
  | cons node rest ih =>
    intro ref out hclean h
    have hcc : nodeNoWrapShape node = true ∧ listNoWrapShape rest = true := by
      simpa [listNoWrapShape, Bool.and_eq_true] using hclean
    simp only [processPassageAux] at h
    by_cases hend : isEndLineGroup node = true
    · rw [if_pos hend] at h
      exact ih ref out hcc.2 h
    · rw [if_neg hend] at h
      cases hp : processNodeF fuel node ref with
      | error e =>
        simp only [hp] at h
        exact Except.noConfusion h
      | ok res =>
        obtain ⟨n1, ref1⟩ := res
        simp only [hp] at h
        have hn1 : nodeWrapOK n1 = true := processNodeF_wrapOK fuel node ref (n1, ref1) hcc.1 hp
        cases hrest : processPassageAux fuel rest ref1 with
        | error e =>
          rw [hrest] at h
          exact Except.noConfusion h
        | ok outRest =>
          rw [hrest] at h
          cases h
          refine listWrapOK_append ?_ (ih ref1 outRest hcc.2 hrest)
          split
          · exact nodeWrapOK_anyChildren hn1
          · split
            · rfl
            · simp [listWrapOK, hn1]

/-- C8: assuming the upstream input contains no element already carrying the
synthetic wrapper shape (a `span` whose attributes are exactly
`class="verse"` plus a `data-ref`), every wrapper-shaped span in the
transformed output — i.e. every synthetically created verse wrapper — has at
least one child: `closeWrapper` drops a wrapper that trimmed down to empty
instead of appending it. -/
theorem claim_C8_wrappers_nonempty (fuel : Nat) (nodes out : List Node)
    (hclean : listNoWrapShape nodes = true)
    (h : processPassage fuel nodes = .ok out) : listWrapOK out = true :=
  processPassageAux_wrapOK fuel nodes "" out hclean h

/-- Witness for C8 on the basic wrapping scenario. -/
theorem claim_C8_wrappers_nonempty_witness :
    listWrapOK [.elem "p" [] [createVerseWrapper "01001001"
      [.elem "b" [] [.text "1"], .text "In the beginning."]]] = true :=
  claim_C8_wrappers_nonempty 5
    [.elem "p" [] [.elem "b" [⟨"id", "v01001001"⟩] [.text "1"], .text " In the beginning."]]
    _ (by decide) rfl
